import Mathlib

/-!
Shallow embedding of the `dataframes_haystack` converters
(`components/converters/_utils.py`, `_common.py`, `pandas.py`, `polars.py`).

Tables are modelled as named columns over scalar values; Python dicts are
insertion-ordered association lists; fallible Python code returns `Except`.
-/

/-- Scalar values that can live in a table cell, a document id or metadata. -/
inductive Value where
  | vStr (s : String)
  | vInt (n : Int)
  | vBool (b : Bool)
  | vNull
deriving DecidableEq, Repr

/-- Python `str(...)` on the scalar values we model. -/
def pyStr : Value → String
  | .vStr s => s
  | .vInt n => toString n
  | .vBool b => if b then "True" else "False"
  | .vNull => "None"

/-- A Python dict with string keys: an insertion-ordered association list.
Dicts produced by the code always have pairwise-distinct keys. -/
abbrev Dict := List (String × Value)

/-- Keys of a dict, in insertion order. -/
def dictKeys (d : Dict) : List String := d.map Prod.fst

/-- A dict is well formed when its keys are pairwise distinct
(always true of a real Python dict). -/
def DictWF (d : Dict) : Prop := (dictKeys d).Nodup

/-- Python `d[k]` as an `Option` (first matching key). -/
def dictLookup : Dict → String → Option Value
  | [], _ => none
  | (k, v) :: t, key => if k = key then some v else dictLookup t key

/-- Remove the first binding of `key` (helper for `pop`). -/
def dictErase : Dict → String → Dict
  | [], _ => []
  | (k, v) :: t, key => if k = key then t else (k, v) :: dictErase t key

/-- Errors surfaced by the embedded code paths. -/
inductive Err where
  | keyError (k : String)
  | columnNotFound (k : String)
  | duplicateColumn (k : String)
  | metadataLengthMismatch
  | incompatibleIndex
  | emptyConcat
  | schemaMismatch
deriving DecidableEq, Repr

/-- Python `row.pop(key)`: the value and the remaining dict,
or a `KeyError` when the key is absent. -/
def dictPop (d : Dict) (key : String) : Except Err (Value × Dict) :=
  match dictLookup d key with
  | some v => .ok (v, dictErase d key)
  | none => .error (.keyError key)

/-- Python `d[k] = v`: replace in place when the key exists, else append. -/
def dictInsert : Dict → String → Value → Dict
  | [], k, v => [(k, v)]
  | (k', v') :: t, k, v => if k' = k then (k', v) :: t else (k', v') :: dictInsert t k v

/-- Python `{**a, **b}`: start from `a` and assign every item of `b` in order. -/
def dictMerge (a b : Dict) : Dict :=
  b.foldl (fun acc kv => dictInsert acc kv.1 kv.2) a

/-- The `Document` value object (external type): id, content, metadata. -/
structure Document where
  id : Option Value
  content : Value
  meta : Dict
deriving DecidableEq, Repr

/-- An eager dataframe: named columns and row-major data.
Mirrors the narrow table interface the converters rely on. -/
structure DataFrame where
  columns : List String
  rows : List (List Value)
deriving DecidableEq, Repr

/-- Well-formedness of a real dataframe: every row has one cell per column,
and column names are pairwise distinct. -/
def DataFrame.WF (df : DataFrame) : Prop :=
  (∀ r ∈ df.rows, r.length = df.columns.length) ∧ df.columns.Nodup

/-- `df.shape[0]`: the row count. -/
def DataFrame.shape0 (df : DataFrame) : Nat := df.rows.length

/-- `df.iter_rows(named=True)` / `df.to_dicts()`: each row as a
column-name-to-value dict, in row order. -/
def DataFrame.iterRowsNamed (df : DataFrame) : List Dict :=
  df.rows.map (fun r => df.columns.zip r)

/-- The `meta` / `extra_metadata` run-time argument:
absent, a single mapping, or one mapping per row. -/
inductive ExtraMeta where
  | absent
  | single (d : Dict)
  | perRow (l : List Dict)
deriving DecidableEq, Repr

/-- Haystack's `normalize_metadata(meta, sources_count)` (external helper;
modelled from its documented behaviour, which the spec restates):
`None` broadcasts empty dicts, a dict broadcasts itself, a list must have
length exactly `sources_count` or a length-mismatch error is raised. -/
def normalize_metadata : ExtraMeta → Nat → Except Err (List Dict)
  | .absent, n => .ok (List.replicate n [])
  | .single d, n => .ok (List.replicate n d)
  | .perRow l, n => if l.length = n then .ok l else .error .metadataLengthMismatch

/-- `doc_id = str(row.pop(index_column)) if index_column else None`:
the configured `index_column` is consulted only when truthy (neither `None`
nor the empty string). -/
def popIndex (index_column : Option String) (row : Dict) :
    Except Err (Option Value × Dict) :=
  match index_column with
  | some s =>
      if s = "" then .ok (none, row)
      else (dictPop row s).map (fun p => (some (Value.vStr (pyStr p.1)), p.2))
  | none => .ok (none, row)

/-- `meta_row = {k: v for k, v in row.items() if k in meta_columns} if
meta_columns else {}` followed by `metadata = {**meta_row, **meta_list[i]}
if meta_list else meta_row`. `meta_columns = None` in Python is modelled as
`[]` (both are falsy and both yield empty row metadata). -/
def buildMeta (meta_columns : List String) (metaListEmpty : Bool) (mi : Dict)
    (row : Dict) : Dict :=
  let meta_row := if meta_columns.isEmpty then []
    else row.filter (fun kv => meta_columns.contains kv.1)
  if metaListEmpty then meta_row else dictMerge meta_row mi

/-- One iteration of the shared conversion loop of
`frame_to_documents` (`_utils.py` lines 41-47, `_common.py` run lines 157-163,
`polars.py` run lines 160-166): pop the id column (string-coerced) when the
configured `index_column` is truthy, pop the content column, keep the row
entries named in `meta_columns`, and overlay the row's extra-metadata entry. -/
def projectRow (content_column : String) (meta_columns : List String)
    (index_column : Option String) (metaListEmpty : Bool) (mi : Dict)
    (row : Dict) : Except Err Document := do
  let (doc_id, row) ← popIndex index_column row
  let (content, row) ← dictPop row content_column
  pure ⟨doc_id, content, buildMeta meta_columns metaListEmpty mi row⟩

/-- The `for i, row in enumerate(...)` document-building loop: build one
document per row with the row's index, propagating the first failure and
returning no documents on failure. -/
def runLoop (f : Nat → Dict → Except Err Document) :
    Nat → List Dict → Except Err (List Document)
  | _, [] => .ok []
  | i, row :: rest => do
      let doc ← f i row
      let docs ← runLoop f (i + 1) rest
      pure (doc :: docs)

/-- `frame_to_documents` from `_utils.py` / `_common.py` (identical code):
normalize the extra metadata against the row count, then run the conversion
loop over the rows in table order. -/
def frame_to_documents (df : DataFrame) (content_column : String)
    (meta_columns : List String) (index_column : Option String)
    (extra_metadata : ExtraMeta) : Except Err (List Document) := do
  let meta_list ← normalize_metadata extra_metadata df.shape0
  runLoop
    (fun i row =>
      projectRow content_column meta_columns index_column meta_list.isEmpty
        (meta_list.getD i []) row)
    0 df.iterRowsNamed

/-- An element of the list passed to a polars `select`: the converters pass
column names (strings) and, when `index_column` is `None`, the Python value
`None`, which polars parses as `lit(None)` — a null column named
`"literal"`. -/
inductive PolarsSel where
  | col (name : String)
  | litNull
deriving DecidableEq, Repr

/-- Output name of a selector (polars names a bare null literal `"literal"`). -/
def polarsSelName : PolarsSel → String
  | .col n => n
  | .litNull => "literal"

/-- Evaluate one selector on a row (given as the column-name/cell zip). -/
def polarsSelEval (cols : List String) (r : List Value) : PolarsSel → Value
  | .col n => (dictLookup (cols.zip r) n).getD .vNull
  | .litNull => .vNull

/-- Polars `df.select(selectors)` (external engine semantics): a referenced
column that is absent raises `ColumnNotFoundError`; duplicate output names
raise `DuplicateError`; otherwise the result has exactly the selected
columns, in order, with the same row count. -/
def polarsSelect (df : DataFrame) (sels : List PolarsSel) :
    Except Err DataFrame :=
  match sels.find? (fun s => match s with
      | .col n => !(df.columns.contains n)
      | .litNull => false) with
  | some (.col n) => .error (.columnNotFound n)
  | some .litNull => .error .schemaMismatch
  | none =>
      let names := sels.map polarsSelName
      if names.Nodup then
        .ok ⟨names, df.rows.map (fun r => sels.map (polarsSelEval df.columns r))⟩
      else
        .error (.duplicateColumn ((names.find? (fun n => 1 < names.count n)).getD ""))

/-- The selector list `[self.index_column, self.content_column,
*self.meta_columns]` built by `PolarsDataFrameConverter.run` and
`DataFrameFileToDocument._run_read`: a `None` index column is passed
through to the engine as-is. -/
def selectedColumns (content_column : String) (meta_columns : List String)
    (index_column : Option String) : List PolarsSel :=
  (match index_column with
    | some s => PolarsSel.col s
    | none => PolarsSel.litNull) :: .col content_column :: meta_columns.map .col

/-- `PolarsDataFrameConverter.run` (`polars.py` lines 132-169): normalize the
metadata, select `[index_column, content_column, *meta_columns]`, iterate the
selected rows as dicts and build one document per row. -/
def PolarsDataFrameConverter.run (content_column : String)
    (meta_columns : List String) (index_column : Option String)
    (dataframe : DataFrame) (meta : ExtraMeta) : Except Err (List Document) := do
  let meta_list ← normalize_metadata meta dataframe.shape0
  let dfSel ← polarsSelect dataframe
    (selectedColumns content_column meta_columns index_column)
  runLoop
    (fun i row =>
      projectRow content_column meta_columns index_column meta_list.isEmpty
        (meta_list.getD i []) row)
    0 dfSel.iterRowsNamed

/-- A pandas dataframe: a (flat or multi-part) row index plus the columns.
For a multi-part index only the flag matters to the converter (it refuses to
use it); `index` holds the flat index labels. -/
structure PandasDF where
  isMultiIndex : Bool
  index : List Value
  columns : List String
  rows : List (List Value)
deriving DecidableEq, Repr

/-- Well-formedness of a real pandas dataframe: one index label and one cell
per column for every row, distinct column names. -/
def PandasDF.WF (df : PandasDF) : Prop :=
  df.index.length = df.rows.length ∧
    (∀ r ∈ df.rows, r.length = df.columns.length) ∧ df.columns.Nodup

/-- `df.shape[0]` for the pandas model. -/
def PandasDF.shape0 (df : PandasDF) : Nat := df.rows.length

/-- `PandasDataFrameConverter._is_compatible_index` (`pandas.py` lines
131-136): only a multi-part index with `use_index_as_id` is incompatible. -/
def isCompatibleIndex (use_index_as_id : Bool) (df : PandasDF) : Bool :=
  if use_index_as_id then !df.isMultiIndex else true

/-- `dataframe[selected].to_dict(orient="records")` (external pandas
semantics): a selected column absent from the frame raises `KeyError`;
otherwise each row becomes a dict built by assigning the selected columns in
order (duplicate selections collapse to one key). -/
def pandasRecords (df : PandasDF) (selected : List String) :
    Except Err (List Dict) :=
  match selected.find? (fun c => !(df.columns.contains c)) with
  | some c => .error (.keyError c)
  | none =>
      .ok (df.rows.map (fun r =>
        selected.foldl
          (fun d c => dictInsert d c ((dictLookup (df.columns.zip r) c).getD .vNull))
          []))

/-- `doc_id = row.pop(index_col_name) if self.use_index_as_id else None`
(`pandas.py` line 179): the popped id is NOT string-coerced at this point. -/
def pandasPopId (use_index_as_id : Bool) (row : Dict) :
    Except Err (Option Value × Dict) :=
  if use_index_as_id then
    (dictPop row "index").map (fun p => (some p.1, p.2))
  else .ok (none, row)

/-- See `pandasPopId`: id pop, content pop, metadata filter and overlay. -/
def pandasProjectRow (content_column : String) (meta_columns : List String)
    (use_index_as_id : Bool) (metaListEmpty : Bool) (mi : Dict)
    (row : Dict) : Except Err Document := do
  let (doc_id, row) ← pandasPopId use_index_as_id row
  let (content, row) ← dictPop row content_column
  pure ⟨doc_id, content, buildMeta meta_columns metaListEmpty mi row⟩

/-- `PandasDataFrameConverter.run` (`pandas.py` lines 138-186): refuse a
multi-part index when `use_index_as_id`, normalize the metadata, turn
`dataframe[[content_column, *meta_columns]]` into records, prepend
`{"index": str(idx), **row}` per record when `use_index_as_id`, then build
one document per record. -/
def PandasDataFrameConverter.run (content_column : String)
    (meta_columns : List String) (use_index_as_id : Bool)
    (dataframe : PandasDF) (meta : ExtraMeta) : Except Err (List Document) := do
  if !(isCompatibleIndex use_index_as_id dataframe) then
    throw .incompatibleIndex
  let meta_list ← normalize_metadata meta dataframe.shape0
  let data_rows0 ← pandasRecords dataframe (content_column :: meta_columns)
  let data_rows :=
    if use_index_as_id then
      (dataframe.index.zip data_rows0).map
        (fun p => dictMerge [("index", Value.vStr (pyStr p.1))] p.2)
    else data_rows0
  runLoop
    (fun i row =>
      pandasProjectRow content_column meta_columns use_index_as_id
        meta_list.isEmpty (meta_list.getD i []) row)
    0 data_rows

/-- `read_with_select` (`_common.py` lines 21-28) specialised to the polars
backend (the only backend whose reader is implemented): read one file (the
file's parsed table is the input here — parsing is external), then select the
requested subset when the subset list is truthy (non-empty). -/
def read_with_select (fileDf : DataFrame) (columns_subset : List PolarsSel) :
    Except Err DataFrame :=
  if columns_subset.isEmpty then .ok fileDf else polarsSelect fileDf columns_subset

/-- `nw.concat(df_list, how="vertical")` (external engine semantics):
an empty list is an error; frames whose column names disagree raise a
schema error; otherwise the rows are stacked in list order. -/
def concatVertical : List DataFrame → Except Err DataFrame
  | [] => .error .emptyConcat
  | d :: rest =>
      if rest.all (fun x => x.columns == d.columns) then
        .ok ⟨d.columns, ((d :: rest).map DataFrame.rows).flatten⟩
      else .error .schemaMismatch

/-- The list comprehension `[read_with_select(...) for path in file_paths]`:
read the files in listed order, stopping at the first failure. -/
def exMapM (g : α → Except Err β) : List α → Except Err (List β)
  | [] => .ok []
  | a :: t => do
      let b ← g a
      let bs ← exMapM g t
      pure (b :: bs)

/-- `DataFrameFileToDocument._run_read` (`_common.py` lines 130-134):
select `[self.index_column, self.content_column, *self.meta_columns]` from
every file's table in file order, then concatenate vertically. -/
def DataFrameFileToDocument.runRead (content_column : String)
    (meta_columns : List String) (index_column : Option String)
    (files : List DataFrame) : Except Err DataFrame := do
  let dfs ← exMapM (fun f =>
    read_with_select f (selectedColumns content_column meta_columns index_column)) files
  concatVertical dfs

/-- `DataFrameFileToDocument.run` (`_common.py` lines 136-164): read and
concatenate the files, then run the same per-row conversion loop as
`frame_to_documents`. -/
def DataFrameFileToDocument.run (content_column : String)
    (meta_columns : List String) (index_column : Option String)
    (files : List DataFrame) (meta : ExtraMeta) : Except Err (List Document) := do
  let df ← DataFrameFileToDocument.runRead content_column meta_columns
    index_column files
  let meta_list ← normalize_metadata meta df.shape0
  runLoop
    (fun i row =>
      projectRow content_column meta_columns index_column meta_list.isEmpty
        (meta_list.getD i []) row)
    0 df.iterRowsNamed

/-- First-occurrence deduplication (`seen` accumulates the names already
kept). Used to state the idempotence of duplicate `meta_columns`. -/
def dedupKeepFirst (seen : List String) : List String → List String
  | [] => []
  | a :: t =>
      if seen.contains a then dedupKeepFirst seen t
      else a :: dedupKeepFirst (a :: seen) t

/-- The row dict as it stands after the id/content pops of the shared loop
(used to state what the row-derived metadata is). -/
def rowAfterPops (content_column : String) (index_column : Option String)
    (row : Dict) : Dict :=
  dictErase
    (match index_column with
      | some s => if s = "" then row else dictErase row s
      | none => row)
    content_column

/-- The row-derived part of one document's metadata: the popped row filtered
to the keys listed in `meta_columns` (empty when `meta_columns` is falsy). -/
def rowMeta (content_column : String) (meta_columns : List String)
    (index_column : Option String) (row : Dict) : Dict :=
  if meta_columns.isEmpty then []
  else (rowAfterPops content_column index_column row).filter
    (fun kv => meta_columns.contains kv.1)



/-! ### Dictionary lemmas -/

theorem contains_iff_mem (l : List String) (a : String) :
    l.contains a = true ↔ a ∈ l := by
  simp [List.contains, List.elem_iff]

@[simp]
theorem dictKeys_nil : dictKeys ([] : Dict) = [] := rfl

@[simp]
theorem dictKeys_cons (k : String) (v : Value) (t : Dict) :
    dictKeys ((k, v) :: t) = k :: dictKeys t := rfl

theorem dictLookup_eq_none (d : Dict) (k : String) :
    dictLookup d k = none ↔ k ∉ dictKeys d := by
  induction d with
  | nil => simp [dictLookup]
  | cons kv t ih =>
      obtain ⟨k0, v0⟩ := kv
      by_cases h : k0 = k
      · subst h
        simp [dictLookup]
      · simp [dictLookup, h, ih, show k ≠ k0 from fun hh => h hh.symm]

theorem dictLookup_isSome_of_mem {d : Dict} {k : String} (h : k ∈ dictKeys d) :
    ∃ v, dictLookup d k = some v := by
  cases hv : dictLookup d k with
  | some v => exact ⟨v, rfl⟩
  | none => exact absurd h ((dictLookup_eq_none d k).1 hv)

theorem mem_of_dictLookup_some {d : Dict} {k : String} {v : Value}
    (h : dictLookup d k = some v) : k ∈ dictKeys d := by
  by_contra hk
  rw [(dictLookup_eq_none d k).2 hk] at h
  exact Option.noConfusion h

theorem dictKeys_dictErase_subset (d : Dict) (k : String) :
    dictKeys (dictErase d k) ⊆ dictKeys d := by
  induction d with
  | nil => simp [dictErase]
  | cons kv t ih =>
      obtain ⟨k0, v0⟩ := kv
      by_cases h : k0 = k
      · subst h
        simp only [dictErase, if_pos rfl, dictKeys_cons]
        exact List.subset_cons_of_subset _ (List.Subset.refl _)
      · simp only [dictErase, h, if_false, dictKeys_cons]
        exact List.cons_subset_cons _ ih

theorem not_mem_keys_dictErase {d : Dict} (hwf : DictWF d) (k : String) :
    k ∉ dictKeys (dictErase d k) := by
  induction d with
  | nil => simp [dictErase]
  | cons kv t ih =>
      obtain ⟨k0, v0⟩ := kv
      rw [DictWF, dictKeys_cons, List.nodup_cons] at hwf
      by_cases h : k0 = k
      · subst h
        simpa [dictErase] using hwf.1
      · simp only [dictErase, h, if_false, dictKeys_cons, List.mem_cons, not_or]
        exact ⟨fun hh => h hh.symm, ih hwf.2⟩

theorem dictErase_WF {d : Dict} (hwf : DictWF d) (k : String) :
    DictWF (dictErase d k) := by
  induction d with
  | nil => simpa [dictErase] using hwf
  | cons kv t ih =>
      obtain ⟨k0, v0⟩ := kv
      rw [DictWF, dictKeys_cons, List.nodup_cons] at hwf
      by_cases h : k0 = k
      · subst h
        simpa [dictErase, DictWF] using hwf.2
      · rw [DictWF]
        simp only [dictErase, h, if_false, dictKeys_cons, List.nodup_cons]
        exact ⟨fun hm => hwf.1 (dictKeys_dictErase_subset t k hm), ih hwf.2⟩

theorem dictLookup_dictErase_of_ne (d : Dict) {k k' : String} (h : k' ≠ k) :
    dictLookup (dictErase d k) k' = dictLookup d k' := by
  induction d with
  | nil => simp [dictErase]
  | cons kv t ih =>
      obtain ⟨k0, v0⟩ := kv
      by_cases h0 : k0 = k
      · subst h0
        simp [dictErase, dictLookup, show ¬(k0 = k') from fun hh => h (hh.symm)]
      · by_cases h1 : k0 = k' <;> simp [dictErase, dictLookup, h, h0, h1, ih]

theorem dictLookup_dictErase_self {d : Dict} (hwf : DictWF d) (k : String) :
    dictLookup (dictErase d k) k = none :=
  (dictLookup_eq_none _ _).2 (not_mem_keys_dictErase hwf k)

theorem dictLookup_dictInsert (d : Dict) (k : String) (v : Value) (k' : String) :
    dictLookup (dictInsert d k v) k' =
      if k' = k then some v else dictLookup d k' := by
  induction d with
  | nil =>
      by_cases h : k' = k
      · subst h
        simp [dictInsert, dictLookup]
      · simp [dictInsert, dictLookup, h, show ¬(k = k') from fun hh => h hh.symm]
  | cons kv t ih =>
      obtain ⟨k0, v0⟩ := kv
      by_cases h0 : k0 = k
      · subst h0
        by_cases h1 : k' = k0
        · subst h1
          simp [dictInsert, dictLookup]
        · simp [dictInsert, dictLookup, h1, show ¬(k0 = k') from fun hh => h1 hh.symm]
      · by_cases h1 : k0 = k'
        · subst h1
          simp [dictInsert, dictLookup, h0, show ¬(k0 = k) from h0,
            show ¬(k0 = k) from h0]
        · simp [dictInsert, dictLookup, h0, h1, ih]

theorem mem_keys_dictInsert {d : Dict} {k : String} {v : Value} {k' : String} :
    k' ∈ dictKeys (dictInsert d k v) ↔ k' ∈ dictKeys d ∨ k' = k := by
  induction d with
  | nil => simp [dictInsert]
  | cons kv t ih =>
      obtain ⟨k0, v0⟩ := kv
      by_cases h0 : k0 = k
      · subst h0
        simp [dictInsert, List.mem_cons]
        tauto
      · simp only [dictInsert, h0, if_false, dictKeys_cons, List.mem_cons, ih]
        tauto

theorem dictInsert_WF {d : Dict} (hwf : DictWF d) (k : String) (v : Value) :
    DictWF (dictInsert d k v) := by
  induction d with
  | nil => simp [dictInsert, DictWF]
  | cons kv t ih =>
      obtain ⟨k0, v0⟩ := kv
      rw [DictWF, dictKeys_cons, List.nodup_cons] at hwf
      by_cases h0 : k0 = k
      · subst h0
        rw [DictWF]
        simpa [dictInsert, List.nodup_cons] using hwf
      · rw [DictWF]
        simp only [dictInsert, h0, if_false, dictKeys_cons, List.nodup_cons]
        refine ⟨fun hm => ?_, ih hwf.2⟩
        rcases mem_keys_dictInsert.1 hm with h | h
        · exact hwf.1 h
        · exact h0 h

theorem dictInsert_eq_self {d : Dict} {k : String} {v : Value}
    (h : dictLookup d k = some v) : dictInsert d k v = d := by
  induction d with
  | nil => simp [dictLookup] at h
  | cons kv t ih =>
      obtain ⟨k0, v0⟩ := kv
      by_cases h0 : k0 = k
      · subst h0
        simp only [dictLookup, if_pos rfl] at h
        simp [dictLookup] at h
        simp [dictInsert, h]
      · simp only [dictLookup, h0, if_false] at h
        simp [dictInsert, h0, ih h]

theorem dictLookup_filter (d : Dict) (p : String → Bool) (k : String) :
    dictLookup (d.filter (fun kv => p kv.1)) k =
      if p k then dictLookup d k else none := by
  induction d with
  | nil => simp [dictLookup]
  | cons kv t ih =>
      obtain ⟨k0, v0⟩ := kv
      by_cases h0 : k0 = k
      · subst h0
        cases hp : p k0 <;> simp [List.filter_cons, hp, dictLookup, ih]
      · cases hp : p k0 <;> simp [List.filter_cons, hp, dictLookup, h0, ih]

theorem dictKeys_filter_subset (d : Dict) (p : String × Value → Bool) :
    dictKeys (d.filter p) ⊆ dictKeys d :=
  ((List.filter_sublist d).map Prod.fst).subset

theorem dictMerge_nil_right (a : Dict) : dictMerge a [] = a := rfl

theorem dictMerge_cons (a : Dict) (k : String) (v : Value) (t : Dict) :
    dictMerge a ((k, v) :: t) = dictMerge (dictInsert a k v) t := rfl

theorem dictLookup_dictMerge_of_none {b : Dict} {k : String}
    (hb : dictLookup b k = none) (a : Dict) :
    dictLookup (dictMerge a b) k = dictLookup a k := by
  induction b generalizing a with
  | nil => simp [dictMerge_nil_right]
  | cons kv t ih =>
      obtain ⟨k0, v0⟩ := kv
      by_cases h0 : k0 = k
      · subst h0
        simp [dictLookup] at hb
      · simp only [dictLookup, h0, if_false] at hb
        rw [dictMerge_cons, ih hb, dictLookup_dictInsert]
        simp [show ¬(k = k0) from fun hh => h0 hh.symm]

theorem dictLookup_dictMerge_of_some {b : Dict} (hb : DictWF b) {k : String}
    {v : Value} (h : dictLookup b k = some v) (a : Dict) :
    dictLookup (dictMerge a b) k = some v := by
  induction b generalizing a with
  | nil => simp [dictLookup] at h
  | cons kv t ih =>
      obtain ⟨k0, v0⟩ := kv
      rw [DictWF, dictKeys_cons, List.nodup_cons] at hb
      by_cases h0 : k0 = k
      · subst h0
        simp [dictLookup] at h
        have ht : dictLookup t k0 = none := (dictLookup_eq_none _ _).2 hb.1
        rw [dictMerge_cons, dictLookup_dictMerge_of_none ht, dictLookup_dictInsert]
        simp [h]
      · simp only [dictLookup, h0, if_false] at h
        rw [dictMerge_cons]
        exact ih hb.2 h _

theorem mem_keys_dictMerge {a b : Dict} {k : String}
    (h : k ∈ dictKeys (dictMerge a b)) : k ∈ dictKeys a ∨ k ∈ dictKeys b := by
  induction b generalizing a with
  | nil => exact Or.inl h
  | cons kv t ih =>
      obtain ⟨k0, v0⟩ := kv
      rw [dictMerge_cons] at h
      rcases ih h with h | h
      · rcases mem_keys_dictInsert.1 h with h | h
        · exact Or.inl h
        · exact Or.inr (by simp [h])
      · exact Or.inr (by simp [h])

theorem dictMerge_WF {a : Dict} (ha : DictWF a) (b : Dict) :
    DictWF (dictMerge a b) := by
  induction b generalizing a with
  | nil => exact ha
  | cons kv t ih =>
      obtain ⟨k0, v0⟩ := kv
      rw [dictMerge_cons]
      exact ih (dictInsert_WF ha k0 v0)

theorem dictLookup_foldlInsert (l : List String) (v : String → Value)
    (d0 : Dict) (k : String) :
    dictLookup (l.foldl (fun d c => dictInsert d c (v c)) d0) k =
      if k ∈ l then some (v k) else dictLookup d0 k := by
  induction l generalizing d0 with
  | nil => simp
  | cons c t ih =>
      rw [List.foldl_cons, ih]
      by_cases ht : k ∈ t
      · simp [ht]
      · by_cases hc : k = c
        · subst hc
          simp [ht, dictLookup_dictInsert]
        · simp [ht, hc, dictLookup_dictInsert]

theorem foldlInsert_WF (l : List String) (v : String → Value) {d0 : Dict}
    (h : DictWF d0) :
    DictWF (l.foldl (fun d c => dictInsert d c (v c)) d0) := by
  induction l generalizing d0 with
  | nil => exact h
  | cons c t ih => exact ih (dictInsert_WF h c (v c))

/-! ### List helper lemmas -/

theorem getD_mem_or (l : List α) (i : Nat) (d : α) :
    l.getD i d ∈ l ∨ l.getD i d = d := by
  induction l generalizing i with
  | nil => simp
  | cons a t ih =>
      cases i with
      | zero => simp
      | succ j =>
          rw [List.getD_cons_succ]
          rcases ih j with h | h
          · exact Or.inl (List.mem_cons_of_mem _ h)
          · exact Or.inr h

theorem replicate_getD {n i : Nat} (h : i < n) (a b : α) :
    (List.replicate n a).getD i b = a := by
  induction n generalizing i with
  | zero => omega
  | succ m ih =>
      cases i with
      | zero => simp [List.replicate]
      | succ j => simpa [List.replicate] using ih (by omega)

theorem dictKeys_zip {cols : List String} {r : List Value}
    (h : cols.length ≤ r.length) : dictKeys (cols.zip r) = cols := by
  simpa [dictKeys] using List.map_fst_zip cols r h

/-! ### Monadic plumbing lemmas -/

theorem except_bind_ok {α : Type u} {β : Type v} {x : Except Err α}
    {g : α → Except Err β} {y : β} :
    x.bind g = .ok y ↔ ∃ a, x = .ok a ∧ g a = .ok y := by
  cases x <;> simp [Except.bind]

theorem dictPop_ok_elim {d : Dict} {k : String} {v : Value} {r : Dict}
    (h : dictPop d k = .ok (v, r)) :
    dictLookup d k = some v ∧ r = dictErase d k := by
  unfold dictPop at h
  cases hl : dictLookup d k with
  | none => rw [hl] at h; exact absurd h (by simp)
  | some w =>
      rw [hl] at h
      simp only [Except.ok.injEq, Prod.mk.injEq] at h
      exact ⟨by rw [h.1], h.2.symm⟩

theorem dictPop_eq_ok {d : Dict} {k : String} {v : Value}
    (h : dictLookup d k = some v) : dictPop d k = .ok (v, dictErase d k) := by
  unfold dictPop
  rw [h]

theorem popIndex_none (row : Dict) : popIndex none row = .ok (none, row) := rfl

theorem popIndex_ok_elim {ic : Option String} {row : Dict} {oid : Option Value}
    {row1 : Dict} (h : popIndex ic row = .ok (oid, row1)) :
    (oid = none ∧ row1 = row) ∨
      ∃ s v, ic = some s ∧ s ≠ "" ∧ dictLookup row s = some v ∧
        oid = some (Value.vStr (pyStr v)) ∧ row1 = dictErase row s := by
  cases ic with
  | none =>
      simp only [popIndex, Except.ok.injEq, Prod.mk.injEq] at h
      exact Or.inl ⟨h.1.symm, h.2.symm⟩
  | some s =>
      rcases eq_or_ne s "" with rfl | hs
      · have h2 : (Except.ok ((none : Option Value), row) : Except Err (Option Value × Dict)) =
          .ok (oid, row1) := h
        simp only [Except.ok.injEq, Prod.mk.injEq] at h2
        exact Or.inl ⟨h2.1.symm, h2.2.symm⟩
      · simp only [popIndex] at h
        rw [if_neg hs] at h
        cases hp : dictPop row s with
        | error e => rw [hp] at h; exact absurd h (by simp [Except.map])
        | ok p =>
            obtain ⟨v, r⟩ := p
            rw [hp] at h
            simp only [Except.map, Except.ok.injEq, Prod.mk.injEq] at h
            obtain ⟨hl, hr⟩ := dictPop_ok_elim hp
            exact Or.inr ⟨s, v, rfl, hs, hl, h.1.symm, by rw [← h.2, hr]⟩

theorem popIndex_keys_subset {ic : Option String} {row : Dict}
    {oid : Option Value} {row1 : Dict} (h : popIndex ic row = .ok (oid, row1)) :
    dictKeys row1 ⊆ dictKeys row := by
  rcases popIndex_ok_elim h with ⟨_, rfl⟩ | ⟨s, v, _, _, _, _, rfl⟩
  · exact fun a ha => ha
  · exact dictKeys_dictErase_subset _ _

theorem popIndex_WF {ic : Option String} {row : Dict} {oid : Option Value}
    {row1 : Dict} (hwf : DictWF row) (h : popIndex ic row = .ok (oid, row1)) :
    DictWF row1 := by
  rcases popIndex_ok_elim h with ⟨_, rfl⟩ | ⟨s, v, _, _, _, _, rfl⟩
  · exact hwf
  · exact dictErase_WF hwf s

theorem projectRow_eq (cc : String) (mcl : List String) (ic : Option String)
    (mle : Bool) (mi : Dict) (row : Dict) :
    projectRow cc mcl ic mle mi row =
      (popIndex ic row).bind (fun p =>
        (dictPop p.2 cc).bind (fun q =>
          .ok ⟨p.1, q.1, buildMeta mcl mle mi q.2⟩)) := rfl

theorem projectRow_ok_elim {cc : String} {mcl : List String}
    {ic : Option String} {mle : Bool} {mi row : Dict} {doc : Document}
    (h : projectRow cc mcl ic mle mi row = .ok doc) :
    ∃ oid row1 c row2, popIndex ic row = .ok (oid, row1) ∧
      dictPop row1 cc = .ok (c, row2) ∧
      doc = ⟨oid, c, buildMeta mcl mle mi row2⟩ := by
  rw [projectRow_eq] at h
  rcases except_bind_ok.1 h with ⟨p, hp, h2⟩
  rcases except_bind_ok.1 h2 with ⟨q, hq, h3⟩
  refine ⟨p.1, p.2, q.1, q.2, hp, hq, ?_⟩
  injection h3 with h4
  exact h4.symm

theorem pandasPopId_false (row : Dict) : pandasPopId false row = .ok (none, row) := rfl

theorem pandasPopId_true (row : Dict) :
    pandasPopId true row =
      (dictPop row "index").map (fun p => (some p.1, p.2)) := rfl

theorem pandasPopId_true_elim {row : Dict} {oid : Option Value} {row1 : Dict}
    (h0 : pandasPopId true row = .ok (oid, row1)) :
    ∃ v, dictLookup row "index" = some v ∧ oid = some v ∧
      row1 = dictErase row "index" := by
  have h : (dictPop row "index").map (fun p => (some p.1, p.2)) = .ok (oid, row1) :=
    (pandasPopId_true row) ▸ h0
  cases hp : dictPop row "index" with
  | error e => rw [hp] at h; exact absurd h (by simp [Except.map])
  | ok p =>
      obtain ⟨v, r⟩ := p
      rw [hp] at h
      simp only [Except.map, Except.ok.injEq, Prod.mk.injEq] at h
      obtain ⟨hl, hr⟩ := dictPop_ok_elim hp
      exact ⟨v, hl, h.1.symm, by rw [← h.2, hr]⟩

theorem pandasProjectRow_eq (cc : String) (mcl : List String) (ui mle : Bool)
    (mi : Dict) (row : Dict) :
    pandasProjectRow cc mcl ui mle mi row =
      (pandasPopId ui row).bind (fun p =>
        (dictPop p.2 cc).bind (fun q =>
          .ok ⟨p.1, q.1, buildMeta mcl mle mi q.2⟩)) := rfl

theorem pandasProjectRow_ok_elim {cc : String} {mcl : List String}
    {ui mle : Bool} {mi row : Dict} {doc : Document}
    (h : pandasProjectRow cc mcl ui mle mi row = .ok doc) :
    ∃ oid row1 c row2, pandasPopId ui row = .ok (oid, row1) ∧
      dictPop row1 cc = .ok (c, row2) ∧
      doc = ⟨oid, c, buildMeta mcl mle mi row2⟩ := by
  rw [pandasProjectRow_eq] at h
  rcases except_bind_ok.1 h with ⟨p, hp, h2⟩
  rcases except_bind_ok.1 h2 with ⟨q, hq, h3⟩
  refine ⟨p.1, p.2, q.1, q.2, hp, hq, ?_⟩
  injection h3 with h4
  exact h4.symm

theorem normalize_metadata_length {em : ExtraMeta} {n : Nat} {ml : List Dict}
    (h : normalize_metadata em n = .ok ml) : ml.length = n := by
  cases em with
  | absent => simp only [normalize_metadata, Except.ok.injEq] at h; simp [← h]
  | single d => simp only [normalize_metadata, Except.ok.injEq] at h; simp [← h]
  | perRow l =>
      by_cases hl : l.length = n
      · simp only [normalize_metadata] at h
        rw [if_pos hl] at h
        injection h with h2
        rw [← h2, hl]
      · simp [normalize_metadata, hl] at h

/-! ### Loop lemmas -/

theorem runLoop_nil (f : Nat → Dict → Except Err Document) (i : Nat) :
    runLoop f i [] = .ok [] := rfl

theorem runLoop_cons (f : Nat → Dict → Except Err Document) (i : Nat)
    (r : Dict) (t : List Dict) :
    runLoop f i (r :: t) =
      (f i r).bind (fun doc =>
        (runLoop f (i + 1) t).bind (fun docs => .ok (doc :: docs))) := rfl

theorem runLoop_ok_length {f : Nat → Dict → Except Err Document} :
    ∀ {i : Nat} {rows : List Dict} {docs : List Document},
      runLoop f i rows = .ok docs → docs.length = rows.length := by
  intro i rows
  induction rows generalizing i with
  | nil =>
      intro docs h
      rw [runLoop_nil] at h
      injection h with h2
      simp [← h2]
  | cons r t ih =>
      intro docs h
      rw [runLoop_cons] at h
      rcases except_bind_ok.1 h with ⟨doc, _, h2⟩
      rcases except_bind_ok.1 h2 with ⟨ds, hds, h3⟩
      injection h3 with h4
      simp [← h4, ih hds]

theorem runLoop_ok_get {f : Nat → Dict → Except Err Document} :
    ∀ {i : Nat} {rows : List Dict} {docs : List Document},
      runLoop f i rows = .ok docs →
      ∀ (j : Nat) (hj : j < rows.length) (hj' : j < docs.length),
        f (i + j) (rows.get ⟨j, hj⟩) = .ok (docs.get ⟨j, hj'⟩) := by
  intro i rows
  induction rows generalizing i with
  | nil =>
      intro docs h j hj
      exact absurd hj (by simp)
  | cons r t ih =>
      intro docs h j hj hj'
      rw [runLoop_cons] at h
      rcases except_bind_ok.1 h with ⟨doc, hdoc, h2⟩
      rcases except_bind_ok.1 h2 with ⟨ds, hds, h3⟩
      injection h3 with h4
      subst h4
      cases j with
      | zero => simpa using hdoc
      | succ m =>
          have hm : m < t.length := by simpa using hj
          have hm' : m < ds.length := by simpa using hj'
          have := ih hds m hm hm'
          have harith : i + 1 + m = i + (m + 1) := by omega
          rw [harith] at this
          simpa using this

theorem runLoop_ok_mem {f : Nat → Dict → Except Err Document} {i : Nat}
    {rows : List Dict} {docs : List Document} (h : runLoop f i rows = .ok docs) :
    ∀ d ∈ docs, ∃ j, ∃ (hj : j < rows.length),
      f (i + j) (rows.get ⟨j, hj⟩) = .ok d := by
  intro d hd
  rcases List.mem_iff_get.1 hd with ⟨⟨j, hj'⟩, rfl⟩
  have hj : j < rows.length := by rw [← runLoop_ok_length h]; exact hj'
  exact ⟨j, hj, runLoop_ok_get h j hj hj'⟩

theorem runLoop_exists {f : Nat → Dict → Except Err Document} :
    ∀ {i : Nat} {rows : List Dict},
      (∀ (j : Nat) (hj : j < rows.length), ∃ doc, f (i + j) (rows.get ⟨j, hj⟩) = .ok doc) →
      ∃ docs, runLoop f i rows = .ok docs := by
  intro i rows
  induction rows generalizing i with
  | nil => exact fun _ => ⟨[], rfl⟩
  | cons r t ih =>
      intro h
      obtain ⟨doc, hdoc⟩ := h 0 (by simp)
      obtain ⟨docs, hdocs⟩ := ih (fun j hj => by
        obtain ⟨d2, hd2⟩ := h (j + 1) (by simpa using hj)
        refine ⟨d2, ?_⟩
        have harith : i + 1 + j = i + (j + 1) := by omega
        rw [harith]
        simpa using hd2)
      have hdoc2 : f i r = .ok doc := by simpa using hdoc
      refine ⟨doc :: docs, ?_⟩
      rw [runLoop_cons]
      simp only [hdoc2, hdocs, Except.bind]

theorem runLoop_congr {f g : Nat → Dict → Except Err Document}
    (h : ∀ j row, f j row = g j row) :
    ∀ (i : Nat) (rows : List Dict), runLoop f i rows = runLoop g i rows := by
  intro i rows
  induction rows generalizing i with
  | nil => rfl
  | cons r t ih => rw [runLoop_cons, runLoop_cons, h, ih]

theorem exMapM_nil (g : α → Except Err β) : exMapM g [] = .ok [] := rfl

theorem exMapM_cons (g : α → Except Err β) (a : α) (t : List α) :
    exMapM g (a :: t) =
      (g a).bind (fun b => (exMapM g t).bind (fun bs => .ok (b :: bs))) := rfl

theorem exMapM_ok_cons_elim {g : α → Except Err β} {a : α} {t : List α}
    {bs : List β} (h : exMapM g (a :: t) = .ok bs) :
    ∃ b bt, g a = .ok b ∧ exMapM g t = .ok bt ∧ bs = b :: bt := by
  rw [exMapM_cons] at h
  rcases except_bind_ok.1 h with ⟨b, hb, h2⟩
  rcases except_bind_ok.1 h2 with ⟨bt, hbt, h3⟩
  injection h3 with h4
  exact ⟨b, bt, hb, hbt, h4.symm⟩

theorem exMapM_ok_mem {g : α → Except Err β} :
    ∀ {l : List α} {bs : List β}, exMapM g l = .ok bs →
      ∀ b ∈ bs, ∃ a ∈ l, g a = .ok b := by
  intro l
  induction l with
  | nil =>
      intro bs h
      rw [exMapM_nil] at h
      injection h with h2
      simp [← h2]
  | cons a t ih =>
      intro bs h
      rcases exMapM_ok_cons_elim h with ⟨b, bt, hb, hbt, rfl⟩
      intro x hx
      rcases List.mem_cons.1 hx with rfl | hx
      · exact ⟨a, List.mem_cons_self a t, hb⟩
      · obtain ⟨a2, ha2, hga⟩ := ih hbt x hx
        exact ⟨a2, List.mem_cons_of_mem _ ha2, hga⟩

theorem exMapM_exists {g : α → Except Err β} :
    ∀ {l : List α}, (∀ a ∈ l, ∃ b, g a = .ok b) →
      ∃ bs, exMapM g l = .ok bs := by
  intro l
  induction l with
  | nil => exact fun _ => ⟨[], rfl⟩
  | cons a t ih =>
      intro h
      obtain ⟨b, hb⟩ := h a (List.mem_cons_self a t)
      obtain ⟨bs, hbs⟩ := ih (fun x hx => h x (List.mem_cons_of_mem _ hx))
      refine ⟨b :: bs, ?_⟩
      rw [exMapM_cons]
      simp only [hb, hbs, Except.bind]

/-! ### Projection characterization lemmas -/

theorem popIndex_some_empty (row : Dict) :
    popIndex (some "") row = .ok (none, row) := rfl

theorem popIndex_some_ne {s : String} {row : Dict} {oid : Option Value}
    {row1 : Dict} (hs : s ≠ "")
    (h : popIndex (some s) row = .ok (oid, row1)) :
    ∃ v, dictLookup row s = some v ∧ oid = some (Value.vStr (pyStr v)) ∧
      row1 = dictErase row s := by
  simp only [popIndex] at h
  rw [if_neg hs] at h
  cases hp : dictPop row s with
  | error e => rw [hp] at h; exact absurd h (by simp [Except.map])
  | ok p =>
      obtain ⟨v, r⟩ := p
      rw [hp] at h
      simp only [Except.map, Except.ok.injEq, Prod.mk.injEq] at h
      obtain ⟨hl, hr⟩ := dictPop_ok_elim hp
      exact ⟨v, hl, h.1.symm, by rw [← h.2, hr]⟩

theorem row2_eq_rowAfterPops {cc : String} {ic : Option String} {row : Dict}
    {oid : Option Value} {row1 : Dict} {c : Value} {row2 : Dict}
    (h1 : popIndex ic row = .ok (oid, row1))
    (h2 : dictPop row1 cc = .ok (c, row2)) :
    row2 = rowAfterPops cc ic row := by
  have hrow2 : row2 = dictErase row1 cc := (dictPop_ok_elim h2).2
  cases ic with
  | none =>
      have h3 : (Except.ok ((none : Option Value), row) :
          Except Err (Option Value × Dict)) = .ok (oid, row1) := h1
      simp only [Except.ok.injEq, Prod.mk.injEq] at h3
      rw [hrow2, ← h3.2]
      rfl
  | some s =>
      rcases eq_or_ne s "" with rfl | hs
      · have h3 : (Except.ok ((none : Option Value), row) :
            Except Err (Option Value × Dict)) = .ok (oid, row1) := h1
        simp only [Except.ok.injEq, Prod.mk.injEq] at h3
        rw [hrow2, ← h3.2]
        simp [rowAfterPops]
      · obtain ⟨v, _, _, hrow1⟩ := popIndex_some_ne hs h1
        rw [hrow2, hrow1]
        simp [rowAfterPops, hs]

theorem buildMeta_rowAfterPops (cc : String) (mcl : List String)
    (ic : Option String) (mle : Bool) (mi : Dict) (row : Dict) :
    buildMeta mcl mle mi (rowAfterPops cc ic row) =
      if mle then rowMeta cc mcl ic row
      else dictMerge (rowMeta cc mcl ic row) mi := rfl

theorem doc_meta_of_projectRow {cc : String} {mcl : List String}
    {ic : Option String} {mle : Bool} {mi row : Dict} {doc : Document}
    (h : projectRow cc mcl ic mle mi row = .ok doc) :
    doc.meta = if mle then rowMeta cc mcl ic row
      else dictMerge (rowMeta cc mcl ic row) mi := by
  obtain ⟨oid, row1, c, row2, h1, h2, rfl⟩ := projectRow_ok_elim h
  rw [show (⟨oid, c, buildMeta mcl mle mi row2⟩ : Document).meta =
    buildMeta mcl mle mi row2 from rfl]
  rw [row2_eq_rowAfterPops h1 h2, buildMeta_rowAfterPops]

theorem doc_id_of_projectRow_none {cc : String} {mcl : List String}
    {mle : Bool} {mi row : Dict} {doc : Document}
    (h : projectRow cc mcl none mle mi row = .ok doc) : doc.id = none := by
  obtain ⟨oid, row1, c, row2, h1, _, rfl⟩ := projectRow_ok_elim h
  have h3 : (Except.ok ((none : Option Value), row) :
      Except Err (Option Value × Dict)) = .ok (oid, row1) := h1
  simp only [Except.ok.injEq, Prod.mk.injEq] at h3
  exact h3.1.symm

theorem rowAfterPops_keys_subset (cc : String) (ic : Option String)
    (row : Dict) : dictKeys (rowAfterPops cc ic row) ⊆ dictKeys row := by
  unfold rowAfterPops
  cases ic with
  | none => exact dictKeys_dictErase_subset _ _
  | some s =>
      rcases eq_or_ne s "" with rfl | hs
      · simpa using dictKeys_dictErase_subset row cc
      · simp only [hs, if_neg hs]
        exact (dictKeys_dictErase_subset _ _).trans (dictKeys_dictErase_subset _ _)

theorem rowAfterPops_WF {row : Dict} (hwf : DictWF row) (cc : String)
    (ic : Option String) : DictWF (rowAfterPops cc ic row) := by
  unfold rowAfterPops
  cases ic with
  | none => exact dictErase_WF hwf cc
  | some s =>
      rcases eq_or_ne s "" with rfl | hs
      · simpa using dictErase_WF hwf cc
      · simp only [hs, if_neg hs]
        exact dictErase_WF (dictErase_WF hwf s) cc

theorem rowAfterPops_cc_none {row : Dict} (hwf : DictWF row) (cc : String)
    (ic : Option String) :
    dictLookup (rowAfterPops cc ic row) cc = none := by
  unfold rowAfterPops
  cases ic with
  | none => exact dictLookup_dictErase_self hwf cc
  | some s =>
      rcases eq_or_ne s "" with rfl | hs
      · simpa using dictLookup_dictErase_self hwf cc
      · simp only [hs, if_neg hs]
        exact dictLookup_dictErase_self (dictErase_WF hwf s) cc

theorem dictLookup_rowMeta_none {cc : String} {mcl : List String}
    {ic : Option String} {row : Dict} {k : String}
    (h : dictLookup (rowAfterPops cc ic row) k = none) :
    dictLookup (rowMeta cc mcl ic row) k = none := by
  unfold rowMeta
  by_cases hm : mcl.isEmpty
  · simp [hm, dictLookup]
  · rw [if_neg hm, dictLookup_filter]
    by_cases hp : mcl.contains k <;> simp [hp, h]

theorem doc_meta_lookup_none {cc : String} {mcl : List String}
    {ic : Option String} {mle : Bool} {mi row : Dict} {doc : Document}
    (h : projectRow cc mcl ic mle mi row = .ok doc) {k : String}
    (hrow : dictLookup (rowAfterPops cc ic row) k = none)
    (hmi : dictLookup mi k = none) :
    dictLookup doc.meta k = none := by
  rw [doc_meta_of_projectRow h]
  cases mle with
  | true => simpa using dictLookup_rowMeta_none hrow
  | false =>
      rw [if_neg Bool.false_ne_true]
      rw [dictLookup_dictMerge_of_none hmi]
      exact dictLookup_rowMeta_none hrow

/-! ### Select, records and concat characterizations -/

theorem iterRowsNamed_length (df : DataFrame) :
    df.iterRowsNamed.length = df.rows.length := by
  simp [DataFrame.iterRowsNamed]

theorem iterRowsNamed_get (df : DataFrame) (j : Nat)
    (h : j < df.iterRowsNamed.length) (h' : j < df.rows.length) :
    df.iterRowsNamed.get ⟨j, h⟩ = df.columns.zip (df.rows.get ⟨j, h'⟩) := by
  simp [DataFrame.iterRowsNamed]

theorem polarsSelect_ok_elim {df : DataFrame} {sels : List PolarsSel}
    {dfSel : DataFrame} (h : polarsSelect df sels = .ok dfSel) :
    dfSel.columns = sels.map polarsSelName ∧
      dfSel.rows = df.rows.map (fun r => sels.map (polarsSelEval df.columns r)) ∧
      (sels.map polarsSelName).Nodup ∧
      ∀ n, PolarsSel.col n ∈ sels → n ∈ df.columns := by
  unfold polarsSelect at h
  cases hf : sels.find? (fun s => match s with
      | .col n => !(df.columns.contains n)
      | .litNull => false) with
  | some sel =>
      rw [hf] at h
      cases sel <;> exact absurd h (by simp)
  | none =>
      rw [hf] at h
      by_cases hnd : (sels.map polarsSelName).Nodup
      · rw [if_pos hnd] at h
        injection h with h2
        refine ⟨by rw [← h2], by rw [← h2], hnd, fun n hn => ?_⟩
        have := List.find?_eq_none.1 hf _ hn
        simpa [contains_iff_mem] using this
      · rw [if_neg hnd] at h
        exact absurd h (by simp)

theorem polarsSelect_ok_of {df : DataFrame} {sels : List PolarsSel}
    (hcols : ∀ n, PolarsSel.col n ∈ sels → n ∈ df.columns)
    (hnodup : (sels.map polarsSelName).Nodup) :
    polarsSelect df sels =
      .ok ⟨sels.map polarsSelName,
        df.rows.map (fun r => sels.map (polarsSelEval df.columns r))⟩ := by
  unfold polarsSelect
  have hf : sels.find? (fun s => match s with
      | .col n => !(df.columns.contains n)
      | .litNull => false) = none := by
    rw [List.find?_eq_none]
    intro s hs
    cases s with
    | col n => simpa [contains_iff_mem] using hcols n hs
    | litNull => simp
  rw [hf, if_pos hnodup]

theorem polarsSelect_error_of_missing {df : DataFrame} {sels : List PolarsSel}
    {m : String} (hm : PolarsSel.col m ∈ sels) (hmiss : m ∉ df.columns) :
    ∃ k, k ∉ df.columns ∧ polarsSelect df sels = .error (.columnNotFound k) := by
  unfold polarsSelect
  have hsome : (sels.find? (fun s => match s with
      | .col n => !(df.columns.contains n)
      | .litNull => false)).isSome := by
    rw [List.find?_isSome]
    exact ⟨.col m, hm, by simpa [contains_iff_mem] using hmiss⟩
  cases hf : sels.find? (fun s => match s with
      | .col n => !(df.columns.contains n)
      | .litNull => false) with
  | none => rw [hf] at hsome; simp at hsome
  | some sel =>
      have hp := List.find?_some hf
      cases sel with
      | litNull => simp at hp
      | col n =>
          refine ⟨n, ?_, rfl⟩
          simpa [contains_iff_mem] using hp

theorem pandasRecords_ok_of {df : PandasDF} {selected : List String}
    (h : ∀ c ∈ selected, c ∈ df.columns) :
    pandasRecords df selected =
      .ok (df.rows.map (fun r =>
        selected.foldl
          (fun d c => dictInsert d c ((dictLookup (df.columns.zip r) c).getD .vNull))
          [])) := by
  unfold pandasRecords
  have hf : selected.find? (fun c => !(df.columns.contains c)) = none := by
    rw [List.find?_eq_none]
    intro c hc
    simpa [contains_iff_mem] using h c hc
  rw [hf]

theorem pandasRecords_ok_elim {df : PandasDF} {selected : List String}
    {recs : List Dict} (h : pandasRecords df selected = .ok recs) :
    (∀ c ∈ selected, c ∈ df.columns) ∧
      recs = df.rows.map (fun r =>
        selected.foldl
          (fun d c => dictInsert d c ((dictLookup (df.columns.zip r) c).getD .vNull))
          []) := by
  unfold pandasRecords at h
  cases hf : selected.find? (fun c => !(df.columns.contains c)) with
  | some c => rw [hf] at h; exact absurd h (by simp)
  | none =>
      rw [hf] at h
      injection h with h2
      refine ⟨fun c hc => ?_, h2.symm⟩
      have := List.find?_eq_none.1 hf _ hc
      simpa [contains_iff_mem] using this

theorem pandasRecords_error_of_missing {df : PandasDF} {selected : List String}
    {m : String} (hm : m ∈ selected) (hmiss : m ∉ df.columns) :
    ∃ k, k ∉ df.columns ∧ pandasRecords df selected = .error (.keyError k) := by
  unfold pandasRecords
  cases hf : selected.find? (fun c => !(df.columns.contains c)) with
  | none =>
      have := List.find?_eq_none.1 hf _ hm
      simp [contains_iff_mem, hmiss] at this
  | some c =>
      have hp := List.find?_some hf
      refine ⟨c, ?_, rfl⟩
      simpa [contains_iff_mem] using hp

theorem concatVertical_ok_elim {dfs : List DataFrame} {df : DataFrame}
    (h : concatVertical dfs = .ok df) :
    ∃ d rest, dfs = d :: rest ∧ df.columns = d.columns ∧
      df.rows = ((d :: rest).map DataFrame.rows).flatten ∧
      ∀ x ∈ dfs, x.columns = d.columns := by
  cases dfs with
  | nil => exact absurd h (by simp [concatVertical])
  | cons d rest =>
      simp only [concatVertical] at h
      by_cases hall : rest.all (fun x => x.columns == d.columns)
      · rw [if_pos hall] at h
        injection h with h2
        refine ⟨d, rest, rfl, by rw [← h2], by rw [← h2], ?_⟩
        intro x hx
        rcases List.mem_cons.1 hx with rfl | hx
        · rfl
        · have := List.all_eq_true.1 hall x hx
          simpa using this
      · rw [if_neg hall] at h
        exact absurd h (by simp)

theorem concatVertical_ok_of {d : DataFrame} {rest : List DataFrame}
    (h : ∀ x ∈ rest, x.columns = d.columns) :
    concatVertical (d :: rest) =
      .ok ⟨d.columns, ((d :: rest).map DataFrame.rows).flatten⟩ := by
  simp only [concatVertical]
  rw [if_pos]
  rw [List.all_eq_true]
  intro x hx
  simpa using h x hx

/-! ### Run-level unfolding lemmas -/

theorem frame_to_documents_eq (df : DataFrame) (cc : String)
    (mcl : List String) (ic : Option String) (em : ExtraMeta) :
    frame_to_documents df cc mcl ic em =
      (normalize_metadata em df.shape0).bind (fun ml =>
        runLoop (fun i row => projectRow cc mcl ic ml.isEmpty (ml.getD i []) row) 0
          df.iterRowsNamed) := rfl

theorem polarsRun_eq (cc : String) (mcl : List String) (ic : Option String)
    (df : DataFrame) (em : ExtraMeta) :
    PolarsDataFrameConverter.run cc mcl ic df em =
      (normalize_metadata em df.shape0).bind (fun ml =>
        (polarsSelect df (selectedColumns cc mcl ic)).bind (fun dfSel =>
          runLoop (fun i row => projectRow cc mcl ic ml.isEmpty (ml.getD i []) row) 0
            dfSel.iterRowsNamed)) := rfl

theorem commonRunRead_eq (cc : String) (mcl : List String)
    (ic : Option String) (files : List DataFrame) :
    DataFrameFileToDocument.runRead cc mcl ic files =
      (exMapM (fun f => read_with_select f (selectedColumns cc mcl ic)) files).bind
        concatVertical := rfl

theorem commonRun_eq (cc : String) (mcl : List String) (ic : Option String)
    (files : List DataFrame) (em : ExtraMeta) :
    DataFrameFileToDocument.run cc mcl ic files em =
      (DataFrameFileToDocument.runRead cc mcl ic files).bind (fun df =>
        (normalize_metadata em df.shape0).bind (fun ml =>
          runLoop (fun i row => projectRow cc mcl ic ml.isEmpty (ml.getD i []) row) 0
            df.iterRowsNamed)) := rfl

theorem pandasRun_incompat {cc : String} {mcl : List String} {ui : Bool}
    {pdf : PandasDF} {em : ExtraMeta} (h : isCompatibleIndex ui pdf = false) :
    PandasDataFrameConverter.run cc mcl ui pdf em = .error .incompatibleIndex := by
  unfold PandasDataFrameConverter.run
  rw [h]
  rfl

theorem pandasRun_compat_eq {cc : String} {mcl : List String} {ui : Bool}
    {pdf : PandasDF} {em : ExtraMeta} (h : isCompatibleIndex ui pdf = true) :
    PandasDataFrameConverter.run cc mcl ui pdf em =
      (normalize_metadata em pdf.shape0).bind (fun ml =>
        (pandasRecords pdf (cc :: mcl)).bind (fun dr0 =>
          runLoop
            (fun i row => pandasProjectRow cc mcl ui ml.isEmpty (ml.getD i []) row) 0
            (if ui then
                (pdf.index.zip dr0).map
                  (fun p => dictMerge [("index", Value.vStr (pyStr p.1))] p.2)
              else dr0))) := by
  unfold PandasDataFrameConverter.run
  rw [h]
  rfl

/-! ### Claim theorems -/

/-- C5: for every table with `n` rows and every list-shaped extra-metadata
argument of length `m ≠ n`, the projection raises the metadata-length-mismatch
error before constructing any Document, and returns no Documents — for
`frame_to_documents`, `PolarsDataFrameConverter.run` and (when the index is
compatible) `PandasDataFrameConverter.run`. -/
theorem spec_c5_metadata_length_mismatch :
    (∀ (df : DataFrame) (cc : String) (mcl : List String) (ic : Option String)
        (l : List Dict), l.length ≠ df.shape0 →
        frame_to_documents df cc mcl ic (.perRow l) =
          .error .metadataLengthMismatch) ∧
    (∀ (cc : String) (mcl : List String) (ic : Option String) (df : DataFrame)
        (l : List Dict), l.length ≠ df.shape0 →
        PolarsDataFrameConverter.run cc mcl ic df (.perRow l) =
          .error .metadataLengthMismatch) ∧
    (∀ (cc : String) (mcl : List String) (ui : Bool) (pdf : PandasDF)
        (l : List Dict), isCompatibleIndex ui pdf = true →
        l.length ≠ pdf.shape0 →
        PandasDataFrameConverter.run cc mcl ui pdf (.perRow l) =
          .error .metadataLengthMismatch) := by
  have hnorm : ∀ (l : List Dict) (n : Nat), l.length ≠ n →
      normalize_metadata (.perRow l) n = .error .metadataLengthMismatch := by
    intro l n hl
    simp only [normalize_metadata]
    rw [if_neg hl]
  refine ⟨?_, ?_, ?_⟩
  · intro df cc mcl ic l hl
    rw [frame_to_documents_eq, hnorm l df.shape0 hl]
    rfl
  · intro cc mcl ic df l hl
    rw [polarsRun_eq, hnorm l df.shape0 hl]
    rfl
  · intro cc mcl ui pdf l hcompat hl
    rw [pandasRun_compat_eq hcompat, hnorm l pdf.shape0 hl]
    rfl

/-- Witness for C5 at a concrete one-row table and an empty metadata list. -/
theorem spec_c5_witness :
    frame_to_documents ⟨["c"], [[Value.vStr "x"]]⟩ "c" [] none (.perRow []) =
        .error .metadataLengthMismatch ∧
      PolarsDataFrameConverter.run "c" [] none ⟨["c"], [[Value.vStr "x"]]⟩
        (.perRow []) = .error .metadataLengthMismatch ∧
      PandasDataFrameConverter.run "c" [] false
        ⟨false, [Value.vInt 0], ["c"], [[Value.vStr "x"]]⟩ (.perRow []) =
        .error .metadataLengthMismatch :=
  ⟨spec_c5_metadata_length_mismatch.1 _ "c" [] none [] (by decide),
   spec_c5_metadata_length_mismatch.2.1 "c" [] none _ [] (by decide),
   spec_c5_metadata_length_mismatch.2.2 "c" [] false _ [] (by decide) (by decide)⟩

/-- C7: a composite (multi-part) pandas index with `use_index_as_id=true`
makes `PandasDataFrameConverter.run` fail with the incompatible-index error
before building any Document; with `use_index_as_id=false` no Document id is
taken from the index (all ids are unset). -/
theorem spec_c7_multiindex_rejected :
    (∀ (cc : String) (mcl : List String) (pdf : PandasDF) (em : ExtraMeta),
        pdf.isMultiIndex = true →
        PandasDataFrameConverter.run cc mcl true pdf em =
          .error .incompatibleIndex) ∧
    (∀ (cc : String) (mcl : List String) (pdf : PandasDF) (em : ExtraMeta)
        (docs : List Document),
        PandasDataFrameConverter.run cc mcl false pdf em = .ok docs →
        ∀ d ∈ docs, d.id = none) := by
  constructor
  · intro cc mcl pdf em hmulti
    exact pandasRun_incompat (by simp [isCompatibleIndex, hmulti])
  · intro cc mcl pdf em docs hrun d hd
    rw [pandasRun_compat_eq (by simp [isCompatibleIndex])] at hrun
    rcases except_bind_ok.1 hrun with ⟨ml, _, h2⟩
    rcases except_bind_ok.1 h2 with ⟨dr0, _, h3⟩
    rw [if_neg Bool.false_ne_true] at h3
    obtain ⟨j, hj, hrow⟩ := runLoop_ok_mem h3 d hd
    obtain ⟨oid, row1, c, row2, h1, _, rfl⟩ := pandasProjectRow_ok_elim hrow
    rw [pandasPopId_false] at h1
    simp only [Except.ok.injEq, Prod.mk.injEq] at h1
    exact h1.1.symm

/-- Witness for C7 at a concrete multi-index frame and a flat-index frame. -/
theorem spec_c7_witness :
    PandasDataFrameConverter.run "c" [] true
        ⟨true, [], ["c"], [[Value.vStr "x"]]⟩ .absent =
        .error .incompatibleIndex ∧
      (⟨none, Value.vStr "x", []⟩ : Document).id = none :=
  ⟨spec_c7_multiindex_rejected.1 "c" [] _ .absent rfl,
   spec_c7_multiindex_rejected.2 "c" [] ⟨false, [Value.vInt 0], ["c"], [[Value.vStr "x"]]⟩
     .absent [⟨none, Value.vStr "x", []⟩] rfl _ (List.mem_singleton.2 rfl)⟩

theorem zip_row_keys {df : DataFrame} (hwf : df.WF) {r : List Value}
    (hr : r ∈ df.rows) : dictKeys (df.columns.zip r) = df.columns :=
  dictKeys_zip (le_of_eq (hwf.1 r hr).symm)

theorem zip_row_WF {df : DataFrame} (hwf : df.WF) {r : List Value}
    (hr : r ∈ df.rows) : DictWF (df.columns.zip r) := by
  rw [DictWF, zip_row_keys hwf hr]
  exact hwf.2

theorem dictLookup_dictErase_none {d : Dict} {k0 k : String}
    (h : dictLookup d k = none) : dictLookup (dictErase d k0) k = none :=
  (dictLookup_eq_none _ _).2
    (fun hm => (dictLookup_eq_none d k).1 h (dictKeys_dictErase_subset d k0 hm))

theorem buildMeta_lookup_none {mcl : List String} {mle : Bool} {mi row2 : Dict}
    {k : String} (hrow : dictLookup row2 k = none)
    (hmi : dictLookup mi k = none) :
    dictLookup (buildMeta mcl mle mi row2) k = none := by
  unfold buildMeta
  have hmr : dictLookup (if mcl.isEmpty then []
      else row2.filter (fun kv => mcl.contains kv.1)) k = none := by
    by_cases hm : mcl.isEmpty
    · simp [hm, dictLookup]
    · rw [if_neg hm, dictLookup_filter]
      by_cases hp : mcl.contains k <;> simp [hp, hrow]
  cases mle with
  | true => simpa using hmr
  | false =>
      rw [if_neg Bool.false_ne_true]
      rw [dictLookup_dictMerge_of_none hmi]
      exact hmr

theorem pandasProjectRow_meta_none {cc : String} {mcl : List String}
    {ui mle : Bool} {mi row : Dict} {doc : Document}
    (h : pandasProjectRow cc mcl ui mle mi row = .ok doc) (hwf : DictWF row)
    {k : String}
    (hk : k = cc ∨ (ui = true ∧ k = "index") ∨ dictLookup row k = none)
    (hmi : dictLookup mi k = none) : dictLookup doc.meta k = none := by
  obtain ⟨oid, row1, c, row2, h1, h2, rfl⟩ := pandasProjectRow_ok_elim h
  have hrow2 : row2 = dictErase row1 cc := (dictPop_ok_elim h2).2
  have hwf1 : DictWF row1 := by
    cases ui with
    | false =>
        rw [pandasPopId_false] at h1
        simp only [Except.ok.injEq, Prod.mk.injEq] at h1
        rw [← h1.2]
        exact hwf
    | true =>
        obtain ⟨v, _, _, hr1⟩ := pandasPopId_true_elim h1
        rw [hr1]
        exact dictErase_WF hwf _
  have hrow2none : dictLookup row2 k = none := by
    rcases hk with rfl | ⟨hui, rfl⟩ | hnone
    · rw [hrow2]
      exact dictLookup_dictErase_self hwf1 k
    · subst hui
      obtain ⟨v, _, _, hr1⟩ := pandasPopId_true_elim h1
      have h1none : dictLookup row1 "index" = none := by
        rw [hr1]
        exact dictLookup_dictErase_self hwf "index"
      rw [hrow2]
      exact dictLookup_dictErase_none h1none
    · have h1none : dictLookup row1 k = none := by
        cases ui with
        | false =>
            rw [pandasPopId_false] at h1
            simp only [Except.ok.injEq, Prod.mk.injEq] at h1
            rw [← h1.2]
            exact hnone
        | true =>
            obtain ⟨v, _, _, hr1⟩ := pandasPopId_true_elim h1
            rw [hr1]
            exact dictLookup_dictErase_none hnone
      rw [hrow2]
      exact dictLookup_dictErase_none h1none
  exact buildMeta_lookup_none hrow2none hmi

/-- C2 counterexample: caller-supplied extra metadata whose key equals the
configured content column reappears verbatim in the output metadata, so the
content-column name DOES occur as a metadata key. -/
theorem spec_c2_counterexample :
    frame_to_documents ⟨["c"], [[Value.vStr "x"]]⟩ "c" [] none
        (.single [("c", Value.vStr "y")]) =
        .ok [⟨none, Value.vStr "x", [("c", Value.vStr "y")]⟩] ∧
      dictKeys [("c", Value.vStr "y")] = ["c"] :=
  ⟨rfl, rfl⟩

/-- C2 (amended): the content column never appears among the ROW-DERIVED
metadata keys — it is popped from the row before metadata extraction — so
whenever the caller-supplied extra metadata itself avoids the content-column
key, no output Document metadata contains it. Extra metadata that uses the
content-column key, however, reintroduces it (see the counterexample).
Stated for `frame_to_documents` and `PandasDataFrameConverter.run`. -/
theorem spec_c2_content_metadata_disjoint :
    (∀ (df : DataFrame) (cc : String) (mcl : List String) (ic : Option String)
        (em : ExtraMeta) (ml : List Dict) (docs : List Document),
        df.WF → normalize_metadata em df.shape0 = .ok ml →
        (∀ dm ∈ ml, dictLookup dm cc = none) →
        frame_to_documents df cc mcl ic em = .ok docs →
        ∀ doc ∈ docs, dictLookup doc.meta cc = none) ∧
    (∀ (cc : String) (mcl : List String) (ui : Bool) (pdf : PandasDF)
        (em : ExtraMeta) (ml : List Dict) (docs : List Document),
        normalize_metadata em pdf.shape0 = .ok ml →
        (∀ dm ∈ ml, dictLookup dm cc = none) →
        PandasDataFrameConverter.run cc mcl ui pdf em = .ok docs →
        ∀ doc ∈ docs, dictLookup doc.meta cc = none) := by
  constructor
  · intro df cc mcl ic em ml docs hwf hml hmi hrun doc hd
    rw [frame_to_documents_eq, hml] at hrun
    replace hrun : runLoop (fun i row =>
        projectRow cc mcl ic ml.isEmpty (ml.getD i []) row) 0 df.iterRowsNamed =
        .ok docs := hrun
    obtain ⟨j, hj, hrow⟩ := runLoop_ok_mem hrun doc hd
    rw [Nat.zero_add] at hrow
    have hj2 : j < df.rows.length := by
      rw [← iterRowsNamed_length df]
      exact hj
    rw [iterRowsNamed_get df j hj hj2] at hrow
    have hrwf : DictWF (df.columns.zip (df.rows.get ⟨j, hj2⟩)) :=
      zip_row_WF hwf (List.get_mem _ _ _)
    have hminone : dictLookup (ml.getD j []) cc = none := by
      rcases getD_mem_or ml j [] with hmem | hempty
      · exact hmi _ hmem
      · rw [hempty]
        rfl
    exact doc_meta_lookup_none hrow (rowAfterPops_cc_none hrwf cc ic) hminone
  · intro cc mcl ui pdf em ml docs hml hmi hrun doc hd
    by_cases hcompat : isCompatibleIndex ui pdf = true
    · rw [pandasRun_compat_eq hcompat, hml] at hrun
      replace hrun : (pandasRecords pdf (cc :: mcl)).bind (fun dr0 =>
          runLoop (fun i row =>
            pandasProjectRow cc mcl ui ml.isEmpty (ml.getD i []) row) 0
            (if ui then
                (pdf.index.zip dr0).map
                  (fun p => dictMerge [("index", Value.vStr (pyStr p.1))] p.2)
              else dr0)) = .ok docs := hrun
      rcases except_bind_ok.1 hrun with ⟨dr0, hdr, h3⟩
      obtain ⟨j, hj, hrow⟩ := runLoop_ok_mem h3 doc hd
      rw [Nat.zero_add] at hrow
      have hrowsWF : ∀ row ∈ (if ui then
          (pdf.index.zip dr0).map
            (fun p => dictMerge [("index", Value.vStr (pyStr p.1))] p.2)
          else dr0), DictWF row := by
        have hdrWF : ∀ row ∈ dr0, DictWF row := by
          intro row hrow0
          rw [(pandasRecords_ok_elim hdr).2] at hrow0
          obtain ⟨r, _, rfl⟩ := List.mem_map.1 hrow0
          exact foldlInsert_WF _ _ (by simp [DictWF])
        cases ui with
        | false => simpa using hdrWF
        | true =>
            simp only [if_pos rfl]
            intro row hrow0
            obtain ⟨p, hp, rfl⟩ := List.mem_map.1 hrow0
            exact dictMerge_WF (by simp [DictWF]) _
      have hrwf : DictWF (List.get _ ⟨j, hj⟩) := hrowsWF _ (List.get_mem _ _ _)
      have hminone : dictLookup (ml.getD j []) cc = none := by
        rcases getD_mem_or ml j [] with hmem | hempty
        · exact hmi _ hmem
        · rw [hempty]
          rfl
      exact pandasProjectRow_meta_none hrow hrwf (Or.inl rfl) hminone
    · rw [pandasRun_incompat (by simpa using hcompat)] at hrun
      exact absurd hrun (by simp)

/-- Witness for C2 (amended) at the two-row test fixture with extra metadata
that avoids the content-column key. -/
theorem spec_c2_witness :
    dictLookup (⟨none, Value.vStr "content1",
        [("meta1", Value.vStr "meta1_1"), ("extra", Value.vStr "m")]⟩ :
        Document).meta "content" = none ∧
      dictLookup (⟨none, Value.vStr "content1",
        [("meta1", Value.vStr "meta1_1")]⟩ : Document).meta "content" = none :=
  ⟨spec_c2_content_metadata_disjoint.1
      ⟨["content", "meta1"], [[Value.vStr "content1", Value.vStr "meta1_1"]]⟩
      "content" ["meta1"] none (.single [("extra", Value.vStr "m")])
      [[("extra", Value.vStr "m")]]
      [⟨none, Value.vStr "content1",
        [("meta1", Value.vStr "meta1_1"), ("extra", Value.vStr "m")]⟩]
      (by constructor <;> decide) rfl (by decide) rfl _ (List.mem_singleton.2 rfl),
   spec_c2_content_metadata_disjoint.2 "content" ["meta1"] false
      ⟨false, [Value.vInt 0], ["content", "meta1"],
        [[Value.vStr "content1", Value.vStr "meta1_1"]]⟩
      .absent [[]]
      [⟨none, Value.vStr "content1", [("meta1", Value.vStr "meta1_1")]⟩]
      rfl (by decide) rfl _ (List.mem_singleton.2 rfl)⟩

theorem rowAfterPops_lookup_none {cc : String} {ic : Option String}
    {row : Dict} {k : String} (h : dictLookup row k = none) :
    dictLookup (rowAfterPops cc ic row) k = none := by
  unfold rowAfterPops
  cases ic with
  | none => exact dictLookup_dictErase_none h
  | some s =>
      rcases eq_or_ne s "" with rfl | hs
      · simpa using dictLookup_dictErase_none h
      · simp only [hs, if_neg hs]
        exact dictLookup_dictErase_none (dictLookup_dictErase_none h)

/-- C3 counterexample: `frame_to_documents` with a `meta_columns` entry that
is absent from the table succeeds and silently omits the requested key —
it does not fail with a column-not-found error. -/
theorem spec_c3_counterexample :
    frame_to_documents ⟨["c"], [[Value.vStr "x"]]⟩ "c" ["missing"] none
      .absent = .ok [⟨none, Value.vStr "x", []⟩] := rfl

/-- C3 (amended): a `meta_columns` entry absent from the table makes
`PandasDataFrameConverter.run` fail with a `KeyError` and
`PolarsDataFrameConverter.run` fail with a `ColumnNotFoundError`;
`frame_to_documents`, however, does NOT fail — it silently omits the
requested key from every output Document's metadata. -/
theorem spec_c3_missing_meta_column :
    (∀ (cc : String) (mcl : List String) (m : String) (ui : Bool)
        (pdf : PandasDF) (em : ExtraMeta) (ml : List Dict),
        m ∈ cc :: mcl → m ∉ pdf.columns →
        isCompatibleIndex ui pdf = true →
        normalize_metadata em pdf.shape0 = .ok ml →
        ∃ k, k ∉ pdf.columns ∧
          PandasDataFrameConverter.run cc mcl ui pdf em = .error (.keyError k)) ∧
    (∀ (cc : String) (mcl : List String) (m : String) (ic : Option String)
        (df : DataFrame) (em : ExtraMeta) (ml : List Dict),
        m ∈ mcl → m ∉ df.columns →
        normalize_metadata em df.shape0 = .ok ml →
        ∃ k, k ∉ df.columns ∧
          PolarsDataFrameConverter.run cc mcl ic df em =
            .error (.columnNotFound k)) ∧
    (∀ (df : DataFrame) (cc : String) (mcl : List String) (m : String)
        (ic : Option String) (em : ExtraMeta) (ml : List Dict)
        (docs : List Document),
        df.WF → m ∉ df.columns →
        normalize_metadata em df.shape0 = .ok ml →
        (∀ dm ∈ ml, dictLookup dm m = none) →
        frame_to_documents df cc mcl ic em = .ok docs →
        ∀ doc ∈ docs, dictLookup doc.meta m = none) := by
  refine ⟨?_, ?_, ?_⟩
  · intro cc mcl m ui pdf em ml hm hmiss hcompat hml
    obtain ⟨k, hk, herr⟩ := @pandasRecords_error_of_missing pdf (cc :: mcl) m hm hmiss
    refine ⟨k, hk, ?_⟩
    rw [pandasRun_compat_eq hcompat, hml]
    show (pandasRecords pdf (cc :: mcl)).bind _ = _
    rw [herr]
    rfl
  · intro cc mcl m ic df em ml hm hmiss hml
    have hsel : PolarsSel.col m ∈ selectedColumns cc mcl ic := by
      unfold selectedColumns
      exact List.mem_cons_of_mem _
        (List.mem_cons_of_mem _ (List.mem_map_of_mem _ hm))
    obtain ⟨k, hk, herr⟩ := polarsSelect_error_of_missing hsel hmiss
    refine ⟨k, hk, ?_⟩
    rw [polarsRun_eq, hml]
    show (polarsSelect df (selectedColumns cc mcl ic)).bind _ = _
    rw [herr]
    rfl
  · intro df cc mcl m ic em ml docs hwf hmiss hml hmi hrun doc hd
    rw [frame_to_documents_eq, hml] at hrun
    replace hrun : runLoop (fun i row =>
        projectRow cc mcl ic ml.isEmpty (ml.getD i []) row) 0 df.iterRowsNamed =
        .ok docs := hrun
    obtain ⟨j, hj, hrow⟩ := runLoop_ok_mem hrun doc hd
    rw [Nat.zero_add] at hrow
    have hj2 : j < df.rows.length := by
      rw [← iterRowsNamed_length df]
      exact hj
    rw [iterRowsNamed_get df j hj hj2] at hrow
    have hrownone : dictLookup (df.columns.zip (df.rows.get ⟨j, hj2⟩)) m = none := by
      rw [dictLookup_eq_none, zip_row_keys hwf (List.get_mem _ _ _)]
      exact hmiss
    have hminone : dictLookup (ml.getD j []) m = none := by
      rcases getD_mem_or ml j [] with hmem | hempty
      · exact hmi _ hmem
      · rw [hempty]
        rfl
    exact doc_meta_lookup_none hrow (rowAfterPops_lookup_none hrownone) hminone

/-- Witness for C3 (amended) at concrete one-row tables with the absent
meta column "missing". -/
theorem spec_c3_witness :
    (∃ k, k ∉ (["c"] : List String) ∧
      PandasDataFrameConverter.run "c" ["missing"] false
        ⟨false, [Value.vInt 0], ["c"], [[Value.vStr "x"]]⟩ .absent =
        .error (.keyError k)) ∧
    (∃ k, k ∉ (["c"] : List String) ∧
      PolarsDataFrameConverter.run "c" ["missing"] none
        ⟨["c"], [[Value.vStr "x"]]⟩ .absent = .error (.columnNotFound k)) ∧
    dictLookup (⟨none, Value.vStr "x", []⟩ : Document).meta "missing" = none :=
  ⟨spec_c3_missing_meta_column.1 "c" ["missing"] "missing" false
      ⟨false, [Value.vInt 0], ["c"], [[Value.vStr "x"]]⟩ .absent [[]]
      (by decide) (by decide) rfl rfl,
   spec_c3_missing_meta_column.2.1 "c" ["missing"] "missing" none
      ⟨["c"], [[Value.vStr "x"]]⟩ .absent [[]]
      (by decide) (by decide) rfl,
   spec_c3_missing_meta_column.2.2 ⟨["c"], [[Value.vStr "x"]]⟩ "c" ["missing"]
      "missing" none .absent [[]] [⟨none, Value.vStr "x", []⟩]
      (by constructor <;> decide) (by decide) rfl (by decide) rfl _
      (List.mem_singleton.2 rfl)⟩

/-- C10: on a pandas frame that has a column literally named "index", running
with `use_index_as_id=true` and "index" listed in `meta_columns` gives each
Document the row's "index" COLUMN value as id (the `{"index": str(idx), **row}`
merge lets the column value overwrite the stringified frame index), and the
requested "index" key is nevertheless absent from the produced metadata
(it is consumed by the id pop). -/
theorem spec_c10_index_column_shadows :
    ∀ (cc : String) (mcl : List String) (pdf : PandasDF) (em : ExtraMeta)
      (ml : List Dict) (docs : List Document),
      pdf.WF → "index" ∈ mcl →
      normalize_metadata em pdf.shape0 = .ok ml →
      (∀ dm ∈ ml, dictLookup dm "index" = none) →
      PandasDataFrameConverter.run cc mcl true pdf em = .ok docs →
      docs.length = pdf.rows.length ∧
        ∀ (j : Nat) (hj : j < docs.length) (hj' : j < pdf.rows.length),
          (docs.get ⟨j, hj⟩).id =
            some ((dictLookup (pdf.columns.zip (pdf.rows.get ⟨j, hj'⟩))
              "index").getD .vNull) ∧
          dictLookup (docs.get ⟨j, hj⟩).meta "index" = none := by
  intro cc mcl pdf em ml docs hwf hidx hml hmi hrun
  by_cases hcompat : isCompatibleIndex true pdf = true
  case neg =>
      rw [pandasRun_incompat (by simpa using hcompat)] at hrun
      exact absurd hrun (by simp)
  rw [pandasRun_compat_eq hcompat, hml] at hrun
  replace hrun : (pandasRecords pdf (cc :: mcl)).bind (fun dr0 =>
      runLoop (fun i row =>
        pandasProjectRow cc mcl true ml.isEmpty (ml.getD i []) row) 0
        (if true then
            (pdf.index.zip dr0).map
              (fun p => dictMerge [("index", Value.vStr (pyStr p.1))] p.2)
          else dr0)) = .ok docs := hrun
  rcases except_bind_ok.1 hrun with ⟨dr0, hdr, h3⟩
  rw [if_pos rfl] at h3
  obtain ⟨hcols, hdr0eq⟩ := pandasRecords_ok_elim hdr
  subst hdr0eq
  have hdr0len : (List.map (fun r =>
      List.foldl (fun d c => dictInsert d c
        ((dictLookup (pdf.columns.zip r) c).getD Value.vNull)) [] (cc :: mcl))
      pdf.rows).length = pdf.rows.length := List.length_map _ _
  have hdlen : ((pdf.index.zip (List.map (fun r =>
      List.foldl (fun d c => dictInsert d c
        ((dictLookup (pdf.columns.zip r) c).getD Value.vNull)) [] (cc :: mcl))
      pdf.rows)).map
      (fun p => dictMerge [("index", Value.vStr (pyStr p.1))] p.2)).length =
      pdf.rows.length := by
    rw [List.length_map, List.length_zip, hdr0len, hwf.1, Nat.min_self]
  have hlen : docs.length = pdf.rows.length := by
    rw [runLoop_ok_length h3, hdlen]
  refine ⟨hlen, ?_⟩
  intro j hj hj'
  have hjd : j < ((pdf.index.zip (List.map (fun r =>
      List.foldl (fun d c => dictInsert d c
        ((dictLookup (pdf.columns.zip r) c).getD Value.vNull)) [] (cc :: mcl))
      pdf.rows)).map
      (fun p => dictMerge [("index", Value.vStr (pyStr p.1))] p.2)).length := by
    rw [hdlen]; exact hj'
  have hget := runLoop_ok_get h3 j hjd hj
  rw [Nat.zero_add] at hget
  have hji : j < pdf.index.length := by rw [hwf.1]; exact hj'
  have hjdr : j < (List.map (fun r =>
      List.foldl (fun d c => dictInsert d c
        ((dictLookup (pdf.columns.zip r) c).getD Value.vNull)) [] (cc :: mcl))
      pdf.rows).length := by rw [hdr0len]; exact hj'
  have hdget : ((pdf.index.zip (List.map (fun r =>
      List.foldl (fun d c => dictInsert d c
        ((dictLookup (pdf.columns.zip r) c).getD Value.vNull)) [] (cc :: mcl))
      pdf.rows)).map
      (fun p => dictMerge [("index", Value.vStr (pyStr p.1))] p.2)).get ⟨j, hjd⟩ =
      dictMerge [("index", Value.vStr (pyStr (pdf.index.get ⟨j, hji⟩)))]
        ((cc :: mcl).foldl
          (fun d c => dictInsert d c
            ((dictLookup (pdf.columns.zip (pdf.rows.get ⟨j, hj'⟩)) c).getD .vNull))
          []) := by
    simp [List.getElem_map, List.getElem_zip]
  rw [hdget] at hget
  have hrecWF : DictWF ((cc :: mcl).foldl
      (fun d c => dictInsert d c
        ((dictLookup (pdf.columns.zip (pdf.rows.get ⟨j, hj'⟩)) c).getD .vNull))
      []) := foldlInsert_WF _ _ (by simp [DictWF])
  have hrecIdx : dictLookup ((cc :: mcl).foldl
      (fun d c => dictInsert d c
        ((dictLookup (pdf.columns.zip (pdf.rows.get ⟨j, hj'⟩)) c).getD .vNull))
      []) "index" =
      some ((dictLookup (pdf.columns.zip (pdf.rows.get ⟨j, hj'⟩))
        "index").getD .vNull) := by
    rw [dictLookup_foldlInsert]
    rw [if_pos (List.mem_cons_of_mem _ hidx)]
  have hmerged : dictLookup (dictMerge
      [("index", Value.vStr (pyStr (pdf.index.get ⟨j, hji⟩)))]
      ((cc :: mcl).foldl
        (fun d c => dictInsert d c
          ((dictLookup (pdf.columns.zip (pdf.rows.get ⟨j, hj'⟩)) c).getD .vNull))
        [])) "index" =
      some ((dictLookup (pdf.columns.zip (pdf.rows.get ⟨j, hj'⟩))
        "index").getD .vNull) :=
    dictLookup_dictMerge_of_some hrecWF hrecIdx _
  constructor
  · obtain ⟨oid, row1, c, row2, h1, h2, heq⟩ := pandasProjectRow_ok_elim hget
    obtain ⟨vv, hv, hoid, _⟩ := pandasPopId_true_elim h1
    rw [hmerged] at hv
    injection hv with hv2
    rw [heq]
    show oid = _
    rw [hoid, hv2]
  · have hmergedWF : DictWF (dictMerge
        [("index", Value.vStr (pyStr (pdf.index.get ⟨j, hji⟩)))]
        ((cc :: mcl).foldl
          (fun d c => dictInsert d c
            ((dictLookup (pdf.columns.zip (pdf.rows.get ⟨j, hj'⟩)) c).getD .vNull))
          [])) := dictMerge_WF (by simp [DictWF]) _
    have hminone : dictLookup (ml.getD j []) "index" = none := by
      rcases getD_mem_or ml j [] with hmem | hempty
      · exact hmi _ hmem
      · rw [hempty]
        rfl
    exact pandasProjectRow_meta_none hget hmergedWF (Or.inr (Or.inl ⟨rfl, rfl⟩))
      hminone

/-- Witness for C10 at a concrete frame with a column named "index". -/
theorem spec_c10_witness :
    (⟨some (Value.vStr "a"), Value.vStr "x", []⟩ : Document).id =
      some ((dictLookup ((["c", "index"] : List String).zip
        [Value.vStr "x", Value.vStr "a"]) "index").getD .vNull) ∧
    dictLookup (⟨some (Value.vStr "a"), Value.vStr "x", []⟩ : Document).meta
      "index" = none :=
  (spec_c10_index_column_shadows "c" ["index"]
    ⟨false, [Value.vInt 0], ["c", "index"], [[Value.vStr "x", Value.vStr "a"]]⟩
    .absent [[]] [⟨some (Value.vStr "a"), Value.vStr "x", []⟩]
    (by exact ⟨rfl, by decide, by decide⟩) (by decide) rfl (by decide)
    rfl).2 0 (by decide) (by decide)

theorem buildMeta_lookup_some {mcl : List String} {mi : Dict} {row2 : Dict}
    {k : String} {v : Value} (hwf : DictWF mi)
    (h : dictLookup mi k = some v) :
    dictLookup (buildMeta mcl false mi row2) k = some v := by
  unfold buildMeta
  rw [if_neg Bool.false_ne_true]
  exact dictLookup_dictMerge_of_some hwf h _

/-- C4: when a row-derived metadata key collides with a key of that row's
extra-metadata entry the extra-metadata value wins, and all non-colliding
keys from both sources are present: the document's metadata looks up to the
extra entry wherever the extra entry is defined and to the row-derived
metadata (`rowMeta`) everywhere else. -/
theorem spec_c4_merge_precedence :
    ∀ (df : DataFrame) (cc : String) (mcl : List String) (ic : Option String)
      (em : ExtraMeta) (ml : List Dict) (docs : List Document)
      (j : Nat) (hj : j < docs.length) (hj2 : j < df.iterRowsNamed.length),
      normalize_metadata em df.shape0 = .ok ml →
      DictWF (ml.getD j []) →
      frame_to_documents df cc mcl ic em = .ok docs →
      (∀ (k : String) (v : Value), dictLookup (ml.getD j []) k = some v →
        dictLookup ((docs.get ⟨j, hj⟩).meta) k = some v) ∧
      (∀ k : String, dictLookup (ml.getD j []) k = none →
        dictLookup ((docs.get ⟨j, hj⟩).meta) k =
          dictLookup (rowMeta cc mcl ic (df.iterRowsNamed.get ⟨j, hj2⟩)) k) := by
  intro df cc mcl ic em ml docs j hj hj2 hml hwfmi hrun
  rw [frame_to_documents_eq, hml] at hrun
  replace hrun : runLoop (fun i row =>
      projectRow cc mcl ic ml.isEmpty (ml.getD i []) row) 0 df.iterRowsNamed =
      .ok docs := hrun
  have hget := runLoop_ok_get hrun j hj2 hj
  rw [Nat.zero_add] at hget
  have hmllen : ml.length = df.rows.length := by
    rw [normalize_metadata_length hml]
    rfl
  have hdlen : docs.length = df.rows.length := by
    rw [runLoop_ok_length hrun, iterRowsNamed_length]
  have hmle : ml.isEmpty = false := by
    cases hcase : ml with
    | nil =>
        exfalso
        rw [hcase] at hmllen
        simp only [List.length_nil] at hmllen
        omega
    | cons a t => rfl
  rw [hmle] at hget
  have hmeta := doc_meta_of_projectRow hget
  rw [if_neg Bool.false_ne_true] at hmeta
  constructor
  · intro k v hk
    rw [hmeta]
    exact dictLookup_dictMerge_of_some hwfmi hk _
  · intro k hk
    rw [hmeta]
    exact dictLookup_dictMerge_of_none hk _

/-- Witness for C4 at a one-row table whose `meta1` column collides with the
extra-metadata key `meta1`. -/
theorem spec_c4_witness :
    dictLookup (⟨none, Value.vStr "x", [("meta1", Value.vStr "override")]⟩ :
        Document).meta "meta1" = some (Value.vStr "override") :=
  (spec_c4_merge_precedence
      ⟨["c", "meta1"], [[Value.vStr "x", Value.vStr "m1"]]⟩ "c" ["meta1"] none
      (.single [("meta1", Value.vStr "override")])
      [[("meta1", Value.vStr "override")]]
      [⟨none, Value.vStr "x", [("meta1", Value.vStr "override")]⟩]
      0 (by decide) (by decide) rfl (by unfold DictWF; decide) rfl).1
    "meta1" (Value.vStr "override") rfl

/-- C8: a single-mapping extra-metadata argument puts every entry of that
mapping into every output Document's metadata (for `frame_to_documents` and
`PandasDataFrameConverter.run`); a list argument of matching length pairs the
i-th mapping with the i-th row (the i-th document is built by the row
projection from the i-th row and the i-th mapping). -/
theorem spec_c8_broadcast_vs_zip :
    (∀ (df : DataFrame) (cc : String) (mcl : List String) (ic : Option String)
        (d : Dict) (docs : List Document), DictWF d →
        frame_to_documents df cc mcl ic (.single d) = .ok docs →
        ∀ doc ∈ docs, ∀ (k : String) (v : Value),
          dictLookup d k = some v → dictLookup doc.meta k = some v) ∧
    (∀ (cc : String) (mcl : List String) (ui : Bool) (pdf : PandasDF)
        (d : Dict) (docs : List Document), DictWF d →
        PandasDataFrameConverter.run cc mcl ui pdf (.single d) = .ok docs →
        ∀ doc ∈ docs, ∀ (k : String) (v : Value),
          dictLookup d k = some v → dictLookup doc.meta k = some v) ∧
    (∀ (df : DataFrame) (cc : String) (mcl : List String) (ic : Option String)
        (l : List Dict) (docs : List Document)
        (j : Nat) (hj : j < docs.length) (hj2 : j < df.iterRowsNamed.length),
        frame_to_documents df cc mcl ic (.perRow l) = .ok docs →
        projectRow cc mcl ic l.isEmpty (l.getD j [])
          (df.iterRowsNamed.get ⟨j, hj2⟩) = .ok (docs.get ⟨j, hj⟩)) := by
  refine ⟨?_, ?_, ?_⟩
  · intro df cc mcl ic d docs hwfd hrun doc hd k v hk
    rw [frame_to_documents_eq] at hrun
    replace hrun : runLoop (fun i row =>
        projectRow cc mcl ic (List.replicate df.shape0 d).isEmpty
          ((List.replicate df.shape0 d).getD i []) row) 0 df.iterRowsNamed =
        .ok docs := hrun
    obtain ⟨j, hj, hrow⟩ := runLoop_ok_mem hrun doc hd
    rw [Nat.zero_add] at hrow
    have hjn : j < df.shape0 := by
      have h2 := hj
      rw [iterRowsNamed_length] at h2
      exact h2
    rw [replicate_getD hjn] at hrow
    have hmle : (List.replicate df.shape0 d).isEmpty = false := by
      cases hn : df.shape0 with
      | zero => omega
      | succ m => rfl
    rw [hmle] at hrow
    have hmeta := doc_meta_of_projectRow hrow
    rw [if_neg Bool.false_ne_true] at hmeta
    rw [hmeta]
    exact dictLookup_dictMerge_of_some hwfd hk _
  · intro cc mcl ui pdf d docs hwfd hrun doc hd k v hk
    by_cases hcompat : isCompatibleIndex ui pdf = true
    · rw [pandasRun_compat_eq hcompat] at hrun
      replace hrun : (pandasRecords pdf (cc :: mcl)).bind (fun dr0 =>
          runLoop (fun i row =>
            pandasProjectRow cc mcl ui (List.replicate pdf.shape0 d).isEmpty
              ((List.replicate pdf.shape0 d).getD i []) row) 0
            (if ui then
                (pdf.index.zip dr0).map
                  (fun p => dictMerge [("index", Value.vStr (pyStr p.1))] p.2)
              else dr0)) = .ok docs := hrun
      rcases except_bind_ok.1 hrun with ⟨dr0, hdr, h3⟩
      obtain ⟨j, hj, hrow⟩ := runLoop_ok_mem h3 doc hd
      rw [Nat.zero_add] at hrow
      have hjn : j < pdf.shape0 := by
        obtain ⟨_, hdr0eq⟩ := pandasRecords_ok_elim hdr
        have hdr0len : dr0.length = pdf.rows.length := by
          rw [hdr0eq, List.length_map]
        cases ui with
        | false =>
            rw [if_neg Bool.false_ne_true] at hj
            rw [hdr0len] at hj
            exact hj
        | true =>
            rw [if_pos rfl, List.length_map, List.length_zip, hdr0len] at hj
            exact lt_of_lt_of_le hj (Nat.min_le_right _ _)
      rw [replicate_getD hjn] at hrow
      have hmle : (List.replicate pdf.shape0 d).isEmpty = false := by
        cases hn : pdf.shape0 with
        | zero => omega
        | succ m => rfl
      rw [hmle] at hrow
      obtain ⟨oid, row1, c, row2, _, _, rfl⟩ := pandasProjectRow_ok_elim hrow
      exact buildMeta_lookup_some hwfd hk
    · rw [pandasRun_incompat (by simpa using hcompat)] at hrun
      exact absurd hrun (by simp)
  · intro df cc mcl ic l docs j hj hj2 hrun
    rw [frame_to_documents_eq] at hrun
    have hnorm : ∃ ml, normalize_metadata (.perRow l) df.shape0 = .ok ml ∧
        runLoop (fun i row =>
          projectRow cc mcl ic ml.isEmpty (ml.getD i []) row) 0
          df.iterRowsNamed = .ok docs := except_bind_ok.1 hrun
    obtain ⟨ml, hml, hloop⟩ := hnorm
    have hmleq : ml = l := by
      by_cases hl : l.length = df.shape0
      · simp only [normalize_metadata] at hml
        rw [if_pos hl] at hml
        injection hml with h2
        exact h2.symm
      · simp only [normalize_metadata] at hml
        rw [if_neg hl] at hml
        exact absurd hml (by simp)
    subst hmleq
    have hget := runLoop_ok_get hloop j hj2 hj
    rw [Nat.zero_add] at hget
    exact hget

/-- Witness for C8 at a two-row table with broadcast and per-row metadata. -/
theorem spec_c8_witness :
    dictLookup (⟨none, Value.vStr "x", [("e", Value.vStr "m")]⟩ :
        Document).meta "e" = some (Value.vStr "m") ∧
      dictLookup (⟨none, Value.vStr "x", [("e", Value.vStr "m")]⟩ :
        Document).meta "e" = some (Value.vStr "m") ∧
      projectRow "c" [] none ([[("e", Value.vStr "p0")], [("e", Value.vStr "p1")]] :
          List Dict).isEmpty
        (([[("e", Value.vStr "p0")], [("e", Value.vStr "p1")]] : List Dict).getD 1 [])
        ((⟨["c"], [[Value.vStr "x"], [Value.vStr "y"]]⟩ :
          DataFrame).iterRowsNamed.get ⟨1, by decide⟩) =
        .ok (([⟨none, Value.vStr "x", [("e", Value.vStr "p0")]⟩,
          ⟨none, Value.vStr "y", [("e", Value.vStr "p1")]⟩] :
          List Document).get ⟨1, by decide⟩) :=
  ⟨spec_c8_broadcast_vs_zip.1 ⟨["c"], [[Value.vStr "x"]]⟩ "c" [] none
      [("e", Value.vStr "m")] [⟨none, Value.vStr "x", [("e", Value.vStr "m")]⟩]
      (by unfold DictWF; decide) rfl _ (List.mem_singleton.2 rfl) "e"
      (Value.vStr "m") rfl,
   spec_c8_broadcast_vs_zip.2.1 "c" [] false
      ⟨false, [Value.vInt 0], ["c"], [[Value.vStr "x"]]⟩
      [("e", Value.vStr "m")] [⟨none, Value.vStr "x", [("e", Value.vStr "m")]⟩]
      (by unfold DictWF; decide) rfl _ (List.mem_singleton.2 rfl) "e"
      (Value.vStr "m") rfl,
   spec_c8_broadcast_vs_zip.2.2 ⟨["c"], [[Value.vStr "x"], [Value.vStr "y"]]⟩
      "c" [] none [[("e", Value.vStr "p0")], [("e", Value.vStr "p1")]]
      [⟨none, Value.vStr "x", [("e", Value.vStr "p0")]⟩,
        ⟨none, Value.vStr "y", [("e", Value.vStr "p1")]⟩]
      1 (by decide) (by decide) rfl⟩

theorem mem_keys_dictErase_of_ne {d : Dict} {k k' : String} (hne : k' ≠ k)
    (h : k' ∈ dictKeys d) : k' ∈ dictKeys (dictErase d k) := by
  induction d with
  | nil => simp at h
  | cons kv t ih =>
      obtain ⟨k0, v0⟩ := kv
      by_cases h0 : k0 = k
      · subst h0
        rw [dictKeys_cons, List.mem_cons] at h
        rcases h with rfl | h
        · exact absurd rfl hne
        · simpa [dictErase] using h
      · rw [dictKeys_cons, List.mem_cons] at h
        simp only [dictErase, h0, if_false, dictKeys_cons, List.mem_cons]
        rcases h with rfl | h
        · exact Or.inl rfl
        · exact Or.inr (ih h)

theorem popIndex_some_ne_eq {s : String} {row : Dict} {v : Value}
    (hs : s ≠ "") (hv : dictLookup row s = some v) :
    popIndex (some s) row =
      .ok (some (Value.vStr (pyStr v)), dictErase row s) := by
  simp only [popIndex]
  rw [if_neg hs, dictPop_eq_ok hv]
  rfl

theorem projectRow_exists {cc : String} {mcl : List String}
    {ic : Option String} {mle : Bool} {mi row : Dict}
    (hic : ∀ s, ic = some s → s ≠ "" → s ∈ dictKeys row)
    (hccne : ∀ s, ic = some s → s ≠ "" → cc ≠ s)
    (hcc : cc ∈ dictKeys row) :
    ∃ doc, projectRow cc mcl ic mle mi row = .ok doc := by
  cases ic with
  | none =>
      obtain ⟨v, hv⟩ := dictLookup_isSome_of_mem hcc
      refine ⟨⟨none, v, buildMeta mcl mle mi (dictErase row cc)⟩, ?_⟩
      rw [projectRow_eq, popIndex_none]
      show (dictPop row cc).bind _ = _
      rw [dictPop_eq_ok hv]
      rfl
  | some s =>
      rcases eq_or_ne s "" with rfl | hs
      · obtain ⟨v, hv⟩ := dictLookup_isSome_of_mem hcc
        refine ⟨⟨none, v, buildMeta mcl mle mi (dictErase row cc)⟩, ?_⟩
        rw [projectRow_eq, popIndex_some_empty]
        show (dictPop row cc).bind _ = _
        rw [dictPop_eq_ok hv]
        rfl
      · obtain ⟨vs, hvs⟩ := dictLookup_isSome_of_mem (hic s rfl hs)
        have hccmem : cc ∈ dictKeys (dictErase row s) :=
          mem_keys_dictErase_of_ne (hccne s rfl hs) hcc
        obtain ⟨vc, hvc⟩ := dictLookup_isSome_of_mem hccmem
        refine ⟨⟨some (Value.vStr (pyStr vs)), vc,
          buildMeta mcl mle mi (dictErase (dictErase row s) cc)⟩, ?_⟩
        rw [projectRow_eq, popIndex_some_ne_eq hs hvs]
        show (dictPop (dictErase row s) cc).bind _ = _
        rw [dictPop_eq_ok hvc]
        rfl

/-- C1: the projection is a per-row map. (i) Under a valid configuration
(content column present, truthy index column present and distinct from the
content column, extra metadata accepted) `frame_to_documents` succeeds with
exactly one Document per table row; (ii) whenever `frame_to_documents`
returns, the i-th Document is the row projection of the i-th row (order
preserved) and the count matches; (iii)/(iv) whenever the polars or pandas
converter `run` returns, the Document count equals the row count;
(v) a zero-row table yields an empty sequence with no error. -/
theorem spec_c1_row_count_and_order :
    (∀ (df : DataFrame) (cc : String) (mcl : List String) (ic : Option String)
        (em : ExtraMeta) (ml : List Dict), df.WF →
        normalize_metadata em df.shape0 = .ok ml →
        cc ∈ df.columns →
        (∀ s, ic = some s → s ≠ "" → s ∈ df.columns ∧ cc ≠ s) →
        ∃ docs, frame_to_documents df cc mcl ic em = .ok docs ∧
          docs.length = df.rows.length) ∧
    (∀ (df : DataFrame) (cc : String) (mcl : List String) (ic : Option String)
        (em : ExtraMeta) (ml : List Dict) (docs : List Document),
        normalize_metadata em df.shape0 = .ok ml →
        frame_to_documents df cc mcl ic em = .ok docs →
        docs.length = df.rows.length ∧
          ∀ (j : Nat) (hj : j < df.iterRowsNamed.length) (hj2 : j < docs.length),
            projectRow cc mcl ic ml.isEmpty (ml.getD j [])
              (df.iterRowsNamed.get ⟨j, hj⟩) = .ok (docs.get ⟨j, hj2⟩)) ∧
    (∀ (cc : String) (mcl : List String) (ic : Option String) (df : DataFrame)
        (em : ExtraMeta) (docs : List Document),
        PolarsDataFrameConverter.run cc mcl ic df em = .ok docs →
        docs.length = df.shape0) ∧
    (∀ (cc : String) (mcl : List String) (ui : Bool) (pdf : PandasDF)
        (em : ExtraMeta) (docs : List Document),
        pdf.index.length = pdf.rows.length →
        PandasDataFrameConverter.run cc mcl ui pdf em = .ok docs →
        docs.length = pdf.shape0) ∧
    (∀ (df : DataFrame) (cc : String) (mcl : List String) (ic : Option String)
        (em : ExtraMeta) (ml : List Dict), df.rows = [] →
        normalize_metadata em df.shape0 = .ok ml →
        frame_to_documents df cc mcl ic em = .ok []) := by
  refine ⟨?_, ?_, ?_, ?_, ?_⟩
  · intro df cc mcl ic em ml hwf hml hcc hic
    rw [frame_to_documents_eq, hml]
    have hex : ∀ (j : Nat) (hj : j < df.iterRowsNamed.length),
        ∃ doc, projectRow cc mcl ic ml.isEmpty (ml.getD (0 + j) [])
          (df.iterRowsNamed.get ⟨j, hj⟩) = .ok doc := by
      intro j hj
      have hj2 : j < df.rows.length := by
        rw [← iterRowsNamed_length df]
        exact hj
      rw [iterRowsNamed_get df j hj hj2]
      have hkeys : dictKeys (df.columns.zip (df.rows.get ⟨j, hj2⟩)) =
          df.columns := zip_row_keys hwf (List.get_mem _ _ _)
      refine projectRow_exists ?_ ?_ ?_
      · intro s hse hsne
        rw [hkeys]
        exact ((hic s hse hsne).1)
      · intro s hse hsne
        exact (hic s hse hsne).2
      · rw [hkeys]
        exact hcc
    obtain ⟨docs, hdocs⟩ := @runLoop_exists
      (fun i row => projectRow cc mcl ic ml.isEmpty (ml.getD i []) row) 0
      df.iterRowsNamed hex
    refine ⟨docs, hdocs, ?_⟩
    rw [runLoop_ok_length hdocs, iterRowsNamed_length]
  · intro df cc mcl ic em ml docs hml hrun
    rw [frame_to_documents_eq, hml] at hrun
    replace hrun : runLoop (fun i row =>
        projectRow cc mcl ic ml.isEmpty (ml.getD i []) row) 0 df.iterRowsNamed =
        .ok docs := hrun
    refine ⟨by rw [runLoop_ok_length hrun, iterRowsNamed_length], ?_⟩
    intro j hj hj2
    have hget := runLoop_ok_get hrun j hj hj2
    rw [Nat.zero_add] at hget
    exact hget
  · intro cc mcl ic df em docs hrun
    rw [polarsRun_eq] at hrun
    rcases except_bind_ok.1 hrun with ⟨ml, _, h2⟩
    rcases except_bind_ok.1 h2 with ⟨dfSel, hsel, h3⟩
    have hrows := (polarsSelect_ok_elim hsel).2.1
    rw [runLoop_ok_length h3, iterRowsNamed_length, hrows, List.length_map]
    rfl
  · intro cc mcl ui pdf em docs hlen hrun
    by_cases hcompat : isCompatibleIndex ui pdf = true
    · rw [pandasRun_compat_eq hcompat] at hrun
      rcases except_bind_ok.1 hrun with ⟨ml, _, h2⟩
      rcases except_bind_ok.1 h2 with ⟨dr0, hdr, h3⟩
      have hdr0len : dr0.length = pdf.rows.length := by
        rw [(pandasRecords_ok_elim hdr).2, List.length_map]
      rw [runLoop_ok_length h3]
      cases ui with
      | false =>
          rw [if_neg Bool.false_ne_true]
          exact hdr0len
      | true =>
          rw [if_pos rfl, List.length_map, List.length_zip, hdr0len, hlen,
            Nat.min_self]
          rfl
    · rw [pandasRun_incompat (by simpa using hcompat)] at hrun
      exact absurd hrun (by simp)
  · intro df cc mcl ic em ml hrows hml
    rw [frame_to_documents_eq, hml]
    show runLoop _ 0 df.iterRowsNamed = _
    rw [DataFrame.iterRowsNamed, hrows]
    rfl

/-- Witness for C1 at the two-row test fixture. -/
theorem spec_c1_witness :
    (∃ docs, frame_to_documents
        ⟨["content", "meta1"],
          [[Value.vStr "content1", Value.vStr "meta1_1"],
            [Value.vStr "content2", Value.vStr "meta1_2"]]⟩
        "content" ["meta1"] none .absent = .ok docs ∧ docs.length = 2) ∧
      ([⟨none, Value.vStr "content1", [("meta1", Value.vStr "meta1_1")]⟩,
        ⟨none, Value.vStr "content2", [("meta1", Value.vStr "meta1_2")]⟩] :
        List Document).length = 2 ∧
      ([⟨none, Value.vStr "c1", []⟩] : List Document).length =
        (⟨["c"], [[Value.vStr "c1"]]⟩ : DataFrame).shape0 ∧
      ([⟨none, Value.vStr "c1", []⟩] : List Document).length =
        (⟨false, [Value.vInt 0], ["c"], [[Value.vStr "c1"]]⟩ : PandasDF).shape0 ∧
      frame_to_documents ⟨["c"], []⟩ "c" [] none .absent = .ok [] :=
  ⟨spec_c1_row_count_and_order.1
      ⟨["content", "meta1"],
        [[Value.vStr "content1", Value.vStr "meta1_1"],
          [Value.vStr "content2", Value.vStr "meta1_2"]]⟩
      "content" ["meta1"] none .absent [[], []]
      (by constructor
          · decide
          · decide)
      rfl (by decide) (by intro s hse; exact absurd hse (by simp)),
   (spec_c1_row_count_and_order.2.1
      ⟨["content", "meta1"],
        [[Value.vStr "content1", Value.vStr "meta1_1"],
          [Value.vStr "content2", Value.vStr "meta1_2"]]⟩
      "content" ["meta1"] none .absent [[], []]
      [⟨none, Value.vStr "content1", [("meta1", Value.vStr "meta1_1")]⟩,
        ⟨none, Value.vStr "content2", [("meta1", Value.vStr "meta1_2")]⟩]
      rfl rfl).1,
   spec_c1_row_count_and_order.2.2.1 "c" [] none ⟨["c"], [[Value.vStr "c1"]]⟩
      .absent [⟨none, Value.vStr "c1", []⟩] rfl,
   spec_c1_row_count_and_order.2.2.2.1 "c" [] false
      ⟨false, [Value.vInt 0], ["c"], [[Value.vStr "c1"]]⟩ .absent
      [⟨none, Value.vStr "c1", []⟩] (by decide) rfl,
   spec_c1_row_count_and_order.2.2.2.2 ⟨["c"], []⟩ "c" [] none .absent []
      rfl rfl⟩

/-! ### Deduplication lemmas -/

theorem mem_dedupKeepFirst {seen l : List String} {a : String} :
    a ∈ dedupKeepFirst seen l ↔ a ∈ l ∧ a ∉ seen := by
  induction l generalizing seen with
  | nil => simp [dedupKeepFirst]
  | cons b t ih =>
      by_cases hb : seen.contains b
      · simp only [dedupKeepFirst]
        rw [if_pos hb, ih]
        constructor
        · rintro ⟨ht, hs⟩
          exact ⟨List.mem_cons_of_mem _ ht, hs⟩
        · rintro ⟨hbt, hs⟩
          rcases List.mem_cons.1 hbt with rfl | ht
          · exact absurd ((contains_iff_mem _ _).1 hb) hs
          · exact ⟨ht, hs⟩
      · simp only [dedupKeepFirst]
        rw [if_neg hb]
        constructor
        · intro hmem
          rcases List.mem_cons.1 hmem with rfl | hmem
          · exact ⟨List.mem_cons_self _ _,
              fun hs => hb ((contains_iff_mem _ _).2 hs)⟩
          · obtain ⟨ht, hs⟩ := ih.1 hmem
            exact ⟨List.mem_cons_of_mem _ ht,
              fun hsa => hs (List.mem_cons_of_mem _ hsa)⟩
        · rintro ⟨hbt, hs⟩
          rcases List.mem_cons.1 hbt with rfl | ht
          · exact List.mem_cons_self _ _
          · by_cases hab : a = b
            · subst hab
              exact List.mem_cons_self _ _
            · refine List.mem_cons_of_mem _ (ih.2 ⟨ht, ?_⟩)
              intro hmem
              rcases List.mem_cons.1 hmem with h | h
              · exact hab h
              · exact hs h

theorem dedupKeepFirst_isEmpty (l : List String) :
    (dedupKeepFirst [] l).isEmpty = l.isEmpty := by
  cases l with
  | nil => rfl
  | cons b t => rfl

theorem find?_dedupKeepFirst (p : String → Bool) :
    ∀ (l seen : List String), (∀ s ∈ seen, p s = false) →
      (dedupKeepFirst seen l).find? p = l.find? p := by
  intro l
  induction l with
  | nil => intro seen _; rfl
  | cons b t ih =>
      intro seen hseen
      by_cases hb : seen.contains b
      · simp only [dedupKeepFirst]
        rw [if_pos hb]
        have hpb : p b = false := hseen b ((contains_iff_mem _ _).1 hb)
        rw [ih seen hseen, List.find?_cons_of_neg t (by simp [hpb])]
      · simp only [dedupKeepFirst]
        rw [if_neg hb]
        cases hpb : p b
        · rw [List.find?_cons_of_neg _ (by simp [hpb]),
            List.find?_cons_of_neg t (by simp [hpb])]
          apply ih
          intro s hs
          rcases List.mem_cons.1 hs with rfl | hs
          · exact hpb
          · exact hseen s hs
        · rw [List.find?_cons_of_pos _ hpb, List.find?_cons_of_pos t hpb]

theorem foldlInsert_dedupKeepFirst (v : String → Value) :
    ∀ (l seen : List String) (d0 : Dict),
      (∀ s ∈ seen, dictLookup d0 s = some (v s)) →
      (dedupKeepFirst seen l).foldl (fun d c => dictInsert d c (v c)) d0 =
        l.foldl (fun d c => dictInsert d c (v c)) d0 := by
  intro l
  induction l with
  | nil => intro seen d0 _; rfl
  | cons b t ih =>
      intro seen d0 hseen
      by_cases hb : seen.contains b
      · simp only [dedupKeepFirst]
        rw [if_pos hb, List.foldl_cons,
          dictInsert_eq_self (hseen b ((contains_iff_mem _ _).1 hb))]
        exact ih seen d0 hseen
      · simp only [dedupKeepFirst]
        rw [if_neg hb, List.foldl_cons, List.foldl_cons]
        apply ih (b :: seen) (dictInsert d0 b (v b))
        intro s hs
        rcases List.mem_cons.1 hs with rfl | hs
        · rw [dictLookup_dictInsert]
          simp
        · rw [dictLookup_dictInsert]
          by_cases hsb : s = b
          · subst hsb
            simp
          · rw [if_neg hsb]
            exact hseen s hs

theorem buildMeta_cols_congr {mcl1 mcl2 : List String}
    (hiso : ∀ a : String, a ∈ mcl1 ↔ a ∈ mcl2)
    (hemp : mcl1.isEmpty = mcl2.isEmpty) (mle : Bool) (mi row : Dict) :
    buildMeta mcl1 mle mi row = buildMeta mcl2 mle mi row := by
  have hcont : ∀ k : String, mcl1.contains k = mcl2.contains k := by
    intro k
    cases hc1 : mcl1.contains k <;> cases hc2 : mcl2.contains k
    · rfl
    · have h2 := (hiso k).2 ((contains_iff_mem _ _).1 hc2)
      exact absurd ((contains_iff_mem _ _).2 h2) (by rw [hc1]; simp)
    · have h2 := (hiso k).1 ((contains_iff_mem _ _).1 hc1)
      exact absurd ((contains_iff_mem _ _).2 h2) (by rw [hc2]; simp)
    · rfl
  unfold buildMeta
  rw [hemp, List.filter_congr (fun x _ => hcont x.1)]

theorem projectRow_cols_congr {mcl1 mcl2 : List String}
    (hiso : ∀ a : String, a ∈ mcl1 ↔ a ∈ mcl2)
    (hemp : mcl1.isEmpty = mcl2.isEmpty) (cc : String) (ic : Option String)
    (mle : Bool) (mi row : Dict) :
    projectRow cc mcl1 ic mle mi row = projectRow cc mcl2 ic mle mi row := by
  rw [projectRow_eq, projectRow_eq]
  exact congrArg _ (funext fun p => congrArg _ (funext fun q => by
    rw [buildMeta_cols_congr hiso hemp]))

theorem pandasProjectRow_cols_congr {mcl1 mcl2 : List String}
    (hiso : ∀ a : String, a ∈ mcl1 ↔ a ∈ mcl2)
    (hemp : mcl1.isEmpty = mcl2.isEmpty) (cc : String) (ui mle : Bool)
    (mi row : Dict) :
    pandasProjectRow cc mcl1 ui mle mi row =
      pandasProjectRow cc mcl2 ui mle mi row := by
  rw [pandasProjectRow_eq, pandasProjectRow_eq]
  exact congrArg _ (funext fun p => congrArg _ (funext fun q => by
    rw [buildMeta_cols_congr hiso hemp]))

theorem selectedColumns_names (cc : String) (mcl : List String)
    (ic : Option String) :
    (selectedColumns cc mcl ic).map polarsSelName =
      (match ic with | some s => s | none => "literal") :: cc :: mcl := by
  have hmap : List.map (polarsSelName ∘ PolarsSel.col) mcl = mcl := by
    induction mcl with
    | nil => rfl
    | cons a t ih => simp [polarsSelName, Function.comp, ih]
  unfold selectedColumns
  cases ic <;> simp [polarsSelName, List.map_map, hmap]

/-- C9 counterexample: duplicate `meta_columns` make the polars converter
fail with a duplicate-column error while the deduplicated list succeeds, so
the two configurations do NOT produce the same Documents. -/
theorem spec_c9_counterexample :
    PolarsDataFrameConverter.run "content" ["meta1", "meta1"] none
        ⟨["content", "meta1"], [[Value.vStr "c1", Value.vStr "m1"]]⟩ .absent =
        .error (.duplicateColumn "meta1") ∧
      dedupKeepFirst [] ["meta1", "meta1"] = ["meta1"] ∧
      PolarsDataFrameConverter.run "content" ["meta1"] none
        ⟨["content", "meta1"], [[Value.vStr "c1", Value.vStr "m1"]]⟩ .absent =
        .ok [⟨none, Value.vStr "c1", [("meta1", Value.vStr "m1")]⟩] :=
  ⟨rfl, rfl, rfl⟩

/-- C9 (amended): duplicate `meta_columns` entries are idempotent for
`frame_to_documents` and for `PandasDataFrameConverter.run` — both are
unchanged by first-occurrence deduplication of `meta_columns` — but
`PolarsDataFrameConverter.run` instead fails with a duplicate-column error
whenever `meta_columns` contains a duplicate (and every referenced column
exists). -/
theorem spec_c9_duplicate_meta_columns :
    (∀ (df : DataFrame) (cc : String) (mcl : List String) (ic : Option String)
        (em : ExtraMeta),
        frame_to_documents df cc mcl ic em =
          frame_to_documents df cc (dedupKeepFirst [] mcl) ic em) ∧
    (∀ (cc : String) (mcl : List String) (ui : Bool) (pdf : PandasDF)
        (em : ExtraMeta),
        PandasDataFrameConverter.run cc mcl ui pdf em =
          PandasDataFrameConverter.run cc (dedupKeepFirst [] mcl) ui pdf em) ∧
    (∀ (cc : String) (mcl : List String) (ic : Option String) (df : DataFrame)
        (em : ExtraMeta) (ml : List Dict),
        normalize_metadata em df.shape0 = .ok ml →
        ¬ mcl.Nodup → cc ∈ df.columns → (∀ m ∈ mcl, m ∈ df.columns) →
        (∀ s, ic = some s → s ∈ df.columns) →
        ∃ k, PolarsDataFrameConverter.run cc mcl ic df em =
          .error (.duplicateColumn k)) := by
  have hiso : ∀ (mcl : List String) (a : String),
      a ∈ mcl ↔ a ∈ dedupKeepFirst [] mcl := by
    intro mcl a
    rw [mem_dedupKeepFirst]
    simp
  have hemp : ∀ mcl : List String,
      mcl.isEmpty = (dedupKeepFirst [] mcl).isEmpty :=
    fun mcl => (dedupKeepFirst_isEmpty mcl).symm
  refine ⟨?_, ?_, ?_⟩
  · intro df cc mcl ic em
    rw [frame_to_documents_eq, frame_to_documents_eq]
    exact congrArg _ (funext fun ml =>
      runLoop_congr (fun j row =>
        projectRow_cols_congr (hiso mcl) (hemp mcl) cc ic ml.isEmpty
          (ml.getD j []) row) 0 df.iterRowsNamed)
  · intro cc mcl ui pdf em
    by_cases hcompat : isCompatibleIndex ui pdf = true
    · rw [pandasRun_compat_eq hcompat, pandasRun_compat_eq hcompat]
      have hrec : pandasRecords pdf (cc :: mcl) =
          pandasRecords pdf (cc :: dedupKeepFirst [] mcl) := by
        have hfind : (cc :: mcl).find? (fun c => !(pdf.columns.contains c)) =
            (cc :: dedupKeepFirst [] mcl).find?
              (fun c => !(pdf.columns.contains c)) := by
          cases hpc : !(pdf.columns.contains cc)
          · rw [List.find?_cons_of_neg mcl (by rw [hpc]; simp),
              List.find?_cons_of_neg (dedupKeepFirst [] mcl) (by rw [hpc]; simp),
              find?_dedupKeepFirst _ mcl [] (by simp)]
          · rw [List.find?_cons_of_pos mcl hpc,
              List.find?_cons_of_pos (dedupKeepFirst [] mcl) hpc]
        have hfold : ∀ r : List Value,
            (cc :: mcl).foldl (fun d c => dictInsert d c
              ((dictLookup (pdf.columns.zip r) c).getD .vNull)) [] =
            (cc :: dedupKeepFirst [] mcl).foldl (fun d c => dictInsert d c
              ((dictLookup (pdf.columns.zip r) c).getD .vNull)) [] := by
          intro r
          rw [List.foldl_cons, List.foldl_cons,
            foldlInsert_dedupKeepFirst _ mcl [] _ (by simp)]
        unfold pandasRecords
        rw [hfind]
        cases hf : (cc :: dedupKeepFirst [] mcl).find?
            (fun c => !(pdf.columns.contains c)) with
        | some c => rfl
        | none =>
            exact congrArg (fun f => Except.ok (List.map f pdf.rows))
              (funext hfold)
      rw [hrec]
      exact congrArg _ (funext fun ml => congrArg _ (funext fun dr0 =>
        runLoop_congr (fun j row =>
          pandasProjectRow_cols_congr (hiso mcl) (hemp mcl) cc ui ml.isEmpty
            (ml.getD j []) row) 0 _))
    · rw [pandasRun_incompat (by simpa using hcompat),
        pandasRun_incompat (by simpa using hcompat)]
  · intro cc mcl ic df em ml hml hnd hcc hmcl hic
    rw [polarsRun_eq, hml]
    have hf : (selectedColumns cc mcl ic).find? (fun s => match s with
        | .col n => !(df.columns.contains n)
        | .litNull => false) = none := by
      rw [List.find?_eq_none]
      intro s hs
      unfold selectedColumns at hs
      rcases List.mem_cons.1 hs with heq | hs
      · cases ic with
        | none =>
            rw [heq]
            simp
        | some s0 =>
            rw [heq]
            show ¬ (!(df.columns.contains s0)) = true
            rw [(contains_iff_mem _ _).2 (hic s0 rfl)]
            simp
      · rcases List.mem_cons.1 hs with heq | hs
        · rw [heq]
          show ¬ (!(df.columns.contains cc)) = true
          rw [(contains_iff_mem _ _).2 hcc]
          simp
        · obtain ⟨m, hm, heq⟩ := List.mem_map.1 hs
          rw [← heq]
          show ¬ (!(df.columns.contains m)) = true
          rw [(contains_iff_mem _ _).2 (hmcl m hm)]
          simp
    have hnames : ¬ ((selectedColumns cc mcl ic).map polarsSelName).Nodup := by
      rw [selectedColumns_names]
      intro h
      exact hnd (List.nodup_cons.1 (List.nodup_cons.1 h).2).2
    refine ⟨((((selectedColumns cc mcl ic).map polarsSelName).find?
      (fun n => 1 < ((selectedColumns cc mcl ic).map polarsSelName).count n)).getD
        ""), ?_⟩
    show (polarsSelect df (selectedColumns cc mcl ic)).bind _ = _
    unfold polarsSelect
    rw [hf, if_neg hnames]
    rfl

/-- Witness for C9 at concrete inputs: the equalities are instantiated and
the polars part is applied at a duplicated `meta_columns` list. -/
theorem spec_c9_witness :
    frame_to_documents ⟨["c", "m"], [[Value.vStr "x", Value.vStr "y"]]⟩ "c"
        ["m", "m"] none .absent =
      frame_to_documents ⟨["c", "m"], [[Value.vStr "x", Value.vStr "y"]]⟩ "c"
        (dedupKeepFirst [] ["m", "m"]) none .absent ∧
      PandasDataFrameConverter.run "c" ["m", "m"] false
        ⟨false, [Value.vInt 0], ["c", "m"], [[Value.vStr "x", Value.vStr "y"]]⟩
        .absent =
      PandasDataFrameConverter.run "c" (dedupKeepFirst [] ["m", "m"]) false
        ⟨false, [Value.vInt 0], ["c", "m"], [[Value.vStr "x", Value.vStr "y"]]⟩
        .absent ∧
      (∃ k, PolarsDataFrameConverter.run "c" ["m", "m"] none
        ⟨["c", "m"], [[Value.vStr "x", Value.vStr "y"]]⟩ .absent =
        .error (.duplicateColumn k)) :=
  ⟨spec_c9_duplicate_meta_columns.1 _ "c" ["m", "m"] none .absent,
   spec_c9_duplicate_meta_columns.2.1 "c" ["m", "m"] false _ .absent,
   spec_c9_duplicate_meta_columns.2.2 "c" ["m", "m"] none _ .absent [[]] rfl
     (by decide) (by decide) (by decide)
     (by intro s hse; injection hse)⟩

theorem read_with_select_selectedColumns (fileDf : DataFrame) (cc : String)
    (mcl : List String) (ic : Option String) :
    read_with_select fileDf (selectedColumns cc mcl ic) =
      polarsSelect fileDf (selectedColumns cc mcl ic) := by
  unfold read_with_select selectedColumns
  cases ic <;> rfl

/-- C6 counterexample: with `index_column` absent, `_run_read` does NOT
restrict the read to the content and metadata columns only — the `None`
entry of `[index_column, content_column, *meta_columns]` is materialized by
the polars engine as an extra null column named "literal". -/
theorem spec_c6_counterexample :
    DataFrameFileToDocument.runRead "content" [] none
        [⟨["content"], [[Value.vStr "a"]]⟩] =
        .ok ⟨["literal", "content"], [[Value.vNull, Value.vStr "a"]]⟩ ∧
      (["literal", "content"] : List String) ≠ ["content"] :=
  ⟨rfl, by decide⟩

/-- C6 (amended): `_run_read` selects `[index_column, content_column,
*meta_columns]` from every file before concatenating in file order. With a
configured index column the read is restricted to exactly
`index :: content :: meta` columns; with `index_column` absent the selection
additionally materializes a null "literal" column in front of the content
and metadata columns, and `run` still succeeds (for readable well-formed
files whose columns include the configuration) with every `Document.id`
left unset. -/
theorem spec_c6_run_read_selection :
    (∀ (cc : String) (mcl : List String) (s : String) (files : List DataFrame)
        (df2 : DataFrame),
        DataFrameFileToDocument.runRead cc mcl (some s) files = .ok df2 →
        df2.columns = s :: cc :: mcl) ∧
    (∀ (cc : String) (mcl : List String) (files : List DataFrame)
        (df2 : DataFrame),
        DataFrameFileToDocument.runRead cc mcl none files = .ok df2 →
        df2.columns = "literal" :: cc :: mcl) ∧
    (∀ (cc : String) (mcl : List String) (f : DataFrame) (fs : List DataFrame),
        (∀ g ∈ f :: fs, g.WF ∧ cc ∈ g.columns ∧ ∀ m ∈ mcl, m ∈ g.columns) →
        ("literal" :: cc :: mcl).Nodup →
        ∃ docs, DataFrameFileToDocument.run cc mcl none (f :: fs) .absent =
          .ok docs ∧ ∀ d ∈ docs, d.id = none) := by
  have hcolsEq : ∀ (cc : String) (mcl : List String) (ic : Option String)
      (files : List DataFrame) (df2 : DataFrame),
      DataFrameFileToDocument.runRead cc mcl ic files = .ok df2 →
      df2.columns = (selectedColumns cc mcl ic).map polarsSelName := by
    intro cc mcl ic files df2 hread
    rw [commonRunRead_eq] at hread
    rcases except_bind_ok.1 hread with ⟨dfs, hmap, hconcat⟩
    obtain ⟨d, rest, rfl, hcols, _, _⟩ := concatVertical_ok_elim hconcat
    obtain ⟨g, _, hg⟩ := exMapM_ok_mem hmap d (List.mem_cons_self _ _)
    rw [read_with_select_selectedColumns] at hg
    rw [hcols, (polarsSelect_ok_elim hg).1]
  refine ⟨?_, ?_, ?_⟩
  · intro cc mcl s files df2 hread
    rw [hcolsEq cc mcl (some s) files df2 hread, selectedColumns_names]
  · intro cc mcl files df2 hread
    rw [hcolsEq cc mcl none files df2 hread, selectedColumns_names]
  · intro cc mcl f fs hfiles hnodup
    have hnames : (selectedColumns cc mcl none).map polarsSelName =
        "literal" :: cc :: mcl := selectedColumns_names cc mcl none
    -- every per-file read succeeds with the selected shape
    have hsel : ∀ g ∈ f :: fs,
        read_with_select g (selectedColumns cc mcl none) =
          .ok ⟨(selectedColumns cc mcl none).map polarsSelName,
            g.rows.map (fun r =>
              (selectedColumns cc mcl none).map (polarsSelEval g.columns r))⟩ := by
      intro g hg
      rw [read_with_select_selectedColumns]
      apply polarsSelect_ok_of
      · intro n hn
        unfold selectedColumns at hn
        rcases List.mem_cons.1 hn with heq | hn
        · exact absurd heq (by simp)
        · rcases List.mem_cons.1 hn with heq | hn
          · injection heq with h2
            rw [h2]
            exact (hfiles g hg).2.1
          · obtain ⟨m, hm, heq⟩ := List.mem_map.1 hn
            injection heq with h2
            rw [← h2]
            exact (hfiles g hg).2.2 m hm
      · rw [hnames]
        exact hnodup
    obtain ⟨dfs, hmap⟩ := exMapM_exists (fun g hg => ⟨_, hsel g hg⟩)
    have hdfsP : ∀ x ∈ dfs,
        x.columns = "literal" :: cc :: mcl ∧
          ∀ r ∈ x.rows, r.length = ("literal" :: cc :: mcl).length := by
      intro x hx
      obtain ⟨g, hg, hgx⟩ := exMapM_ok_mem hmap x hx
      rw [hsel g hg] at hgx
      injection hgx with h2
      constructor
      · rw [← h2, hnames]
      · intro r hr
        rw [← h2] at hr
        obtain ⟨r0, _, rfl⟩ := List.mem_map.1 hr
        rw [List.length_map, ← hnames, List.length_map]
    obtain ⟨d, rest, rfl⟩ : ∃ d rest, dfs = d :: rest := by
      obtain ⟨b, bt, _, _, rfl⟩ := exMapM_ok_cons_elim hmap
      exact ⟨b, bt, rfl⟩
    have hconcat := @concatVertical_ok_of d rest
      (fun x hx => by
        rw [(hdfsP x (List.mem_cons_of_mem _ hx)).1,
          (hdfsP d (List.mem_cons_self _ _)).1])
    have hrowsLen : ∀ r ∈ (((d :: rest).map DataFrame.rows).flatten),
        r.length = ("literal" :: cc :: mcl).length := by
      intro r hr
      obtain ⟨rl, hrl, hr2⟩ := List.mem_flatten.1 hr
      obtain ⟨x, hx, rfl⟩ := List.mem_map.1 hrl
      exact (hdfsP x hx).2 r hr2
    have hdcols : d.columns = "literal" :: cc :: mcl :=
      (hdfsP d (List.mem_cons_self _ _)).1
    -- the run succeeds
    have hrunEq : DataFrameFileToDocument.run cc mcl none (f :: fs) .absent =
        runLoop (fun i row => projectRow cc mcl none
          (List.replicate (DataFrame.shape0
            ⟨d.columns, ((d :: rest).map DataFrame.rows).flatten⟩) ([] : Dict)).isEmpty
          ((List.replicate (DataFrame.shape0
            ⟨d.columns, ((d :: rest).map DataFrame.rows).flatten⟩)
            ([] : Dict)).getD i [])
          row) 0
        (DataFrame.iterRowsNamed
          ⟨d.columns, ((d :: rest).map DataFrame.rows).flatten⟩) := by
      rw [commonRun_eq, commonRunRead_eq, hmap]
      show (concatVertical (d :: rest)).bind _ = _
      rw [hconcat]
      rfl
    have hloopEx : ∀ (j : Nat)
        (hj : j < (DataFrame.iterRowsNamed
          ⟨d.columns, ((d :: rest).map DataFrame.rows).flatten⟩).length),
        ∃ doc, projectRow cc mcl none
          (List.replicate (DataFrame.shape0
            ⟨d.columns, ((d :: rest).map DataFrame.rows).flatten⟩)
            ([] : Dict)).isEmpty
          ((List.replicate (DataFrame.shape0
            ⟨d.columns, ((d :: rest).map DataFrame.rows).flatten⟩)
            ([] : Dict)).getD (0 + j) [])
          ((DataFrame.iterRowsNamed
            ⟨d.columns, ((d :: rest).map DataFrame.rows).flatten⟩).get ⟨j, hj⟩) =
          .ok doc := by
      intro j hj
      have hj2 : j < (((d :: rest).map DataFrame.rows).flatten).length := by
        rw [← iterRowsNamed_length
          ⟨d.columns, ((d :: rest).map DataFrame.rows).flatten⟩]
        exact hj
      rw [iterRowsNamed_get _ j hj hj2]
      apply projectRow_exists (fun s hse => by exact absurd hse (by simp))
        (fun s hse => by exact absurd hse (by simp))
      have hlen : (((d :: rest).map DataFrame.rows).flatten).get ⟨j, hj2⟩ ∈
          ((d :: rest).map DataFrame.rows).flatten := List.get_mem _ _ _
      have hlen2 := hrowsLen _ hlen
      rw [show (⟨d.columns, ((d :: rest).map DataFrame.rows).flatten⟩ :
        DataFrame).columns = d.columns from rfl]
      rw [dictKeys_zip (by rw [hlen2, hdcols])]
      rw [hdcols]
      exact List.mem_cons_of_mem _ (List.mem_cons_self _ _)
    obtain ⟨docs, hdocs⟩ := @runLoop_exists
      (fun i row => projectRow cc mcl none
        (List.replicate (DataFrame.shape0
          ⟨d.columns, ((d :: rest).map DataFrame.rows).flatten⟩)
          ([] : Dict)).isEmpty
        ((List.replicate (DataFrame.shape0
          ⟨d.columns, ((d :: rest).map DataFrame.rows).flatten⟩)
          ([] : Dict)).getD i [])
        row) 0
      (DataFrame.iterRowsNamed
        ⟨d.columns, ((d :: rest).map DataFrame.rows).flatten⟩) hloopEx
    refine ⟨docs, ?_, ?_⟩
    · rw [hrunEq]
      exact hdocs
    · intro doc hd
      obtain ⟨j, hjr, hrow⟩ := runLoop_ok_mem hdocs doc hd
      exact doc_id_of_projectRow_none hrow


/-- Witness for C6 (amended) at concrete single-file inputs. -/
theorem spec_c6_witness :
    (⟨["i", "c"], [[Value.vInt 1, Value.vStr "x"]]⟩ : DataFrame).columns =
        "i" :: "c" :: [] ∧
      (⟨["literal", "c"], [[Value.vNull, Value.vStr "x"]]⟩ : DataFrame).columns =
        "literal" :: "c" :: [] ∧
      ∃ docs, DataFrameFileToDocument.run "c" [] none
          [⟨["c"], [[Value.vStr "x"]]⟩] .absent = .ok docs ∧
        ∀ d ∈ docs, d.id = none :=
  ⟨spec_c6_run_read_selection.1 "c" [] "i"
      [⟨["i", "c"], [[Value.vInt 1, Value.vStr "x"]]⟩]
      ⟨["i", "c"], [[Value.vInt 1, Value.vStr "x"]]⟩ rfl,
   spec_c6_run_read_selection.2.1 "c" [] [⟨["c"], [[Value.vStr "x"]]⟩]
      ⟨["literal", "c"], [[Value.vNull, Value.vStr "x"]]⟩ rfl,
   spec_c6_run_read_selection.2.2 "c" [] ⟨["c"], [[Value.vStr "x"]]⟩ []
      (by
        intro g hg
        rcases List.mem_singleton.1 hg with rfl
        exact ⟨⟨by decide, by decide⟩, by decide,
          fun m hm => absurd hm (by simp)⟩)
      (by decide)⟩
